import Mathlib

/-!
Shallow embedding of the Sudoku engine (`SudokuGenerator` class) of this
repository, together with proofs about it.  JavaScript arrays of arrays are
modelled as `List (List Nat)`, in-place mutation as functional update,
`Date.now()` as an abstract stream of clock readings, and `Math.random()`
as an abstract stream of natural numbers.
-/

namespace SudokuGenerator

/-! ## Definitions: the embedded program and the specification predicates -/

/-- A grid is a list of rows (JS: array of arrays of numbers); `0` is an empty cell. -/
abbrev Grid := List (List Nat)

/-- Cell read `grid[row][col]`.  Out-of-range reads default to `0`; all the
algorithms only read in range on the well-formed (square) grids described by `wf`. -/
def cell (g : Grid) (r c : Nat) : Nat := (g[r]?.getD [])[c]?.getD 0

/-- Cell write `grid[row][col] = v` (JS mutation, modelled functionally). -/
def place (g : Grid) (r c v : Nat) : Grid := g.set r ((g[r]?.getD []).set c v)

/-- `grid[row][col] = 0` -/
def setZero (g : Grid) (r c : Nat) : Grid := place g r c 0

/-- `Array(size).fill().map(() => Array(size).fill(0))` -/
def emptyGrid (n : Nat) : Grid := List.replicate n (List.replicate n 0)

/-- Well-formedness: an `n × n` rectangular grid (the spec's Grid data model). -/
def wf (n : Nat) (g : Grid) : Prop := g.length = n ∧ ∀ row ∈ g, row.length = n

instance (n : Nat) (g : Grid) : Decidable (wf n g) := by unfold wf; infer_instance

/-- Integer square root by exhaustive search (structurally recursive, so it
evaluates by kernel reduction).  On perfect squares it agrees with JS
`Math.sqrt`; supported grid sizes only ever take it at perfect squares. -/
def mathSqrt (n : Nat) : Nat :=
  ((List.range (n + 1)).filter fun k => k * k ≤ n).length - 1

/-- The `boxSize` field assigned by `setSize` (source: `setSize`); `4 ↦ 2`,
`6 ↦ 2` (with 2×3 boxes special-cased in the validators), `9 ↦ 3`,
otherwise `Math.sqrt(size)`. -/
def boxSizeOf (n : Nat) : Nat :=
  if n = 4 then 2 else if n = 6 then 2 else if n = 9 then 3 else mathSqrt n

/-- `isValid(row, col, num)` (source: `isValid`), parameterized by the `size`
and `boxSize` fields of the generator.  Scans the row, the column and the
enclosing box; `N = 6` uses 2×3 boxes, otherwise square `boxSize × boxSize`
boxes.  The JS early `return false` is the short-circuit of `&&`/`all`. -/
def isValid (size boxSize : Nat) (g : Grid) (row col num : Nat) : Bool :=
  ((List.range size).all fun x => cell g row x != num) &&
  ((List.range size).all fun x => cell g x col != num) &&
  (if size = 6 then
    (List.range 2).all fun i => (List.range 3).all fun j =>
      cell g (row / 2 * 2 + i) (col / 3 * 3 + j) != num
  else
    (List.range boxSize).all fun i => (List.range boxSize).all fun j =>
      cell g (row / boxSize * boxSize + i) (col / boxSize * boxSize + j) != num)

/-- `isValidForGrid(grid, row, col, num)` (source: `isValidForGrid`): the same
scans with `size = grid.length` and, in the square branch, `Math.sqrt(size)`
as box size (the source duplicates the body of `isValid`; here we share it). -/
def isValidForGrid (g : Grid) (row col num : Nat) : Bool :=
  isValid g.length (mathSqrt g.length) g row col num

/-- Box height: `2` for the special-cased `N = 6`, else `√N`. -/
def bRows (n : Nat) : Nat := if n = 6 then 2 else mathSqrt n

/-- Box width: `3` for the special-cased `N = 6`, else `√N`. -/
def bCols (n : Nat) : Nat := if n = 6 then 3 else mathSqrt n

/-- Uniform restatement of the validator scans in terms of `bRows`/`bCols`;
for the supported `(size, boxSize)` pairs it coincides with `isValid` and
(on grids of the right length) with `isValidForGrid`. -/
def isValidGeom (n : Nat) (g : Grid) (row col num : Nat) : Bool :=
  ((List.range n).all fun x => cell g row x != num) &&
  ((List.range n).all fun x => cell g x col != num) &&
  ((List.range (bRows n)).all fun i => (List.range (bCols n)).all fun j =>
      cell g (row / bRows n * bRows n + i) (col / bCols n * bCols n + j) != num)

/-- The supported grid sizes (spec: supported sizes are 4, 6, 9). -/
def Supported (n : Nat) : Prop := n = 4 ∨ n = 6 ∨ n = 9

/-- Supported `(size, boxSize)` pairs as configured by `setSize`. -/
def SuppPair (n bs : Nat) : Prop := (n = 4 ∧ bs = 2) ∨ (n = 6 ∧ bs = 2) ∨ (n = 9 ∧ bs = 3)

/-- `createFallbackGrid` (source: `createFallbackGrid`):
`cell(row, col) = ((row * boxSize + ⌊row / boxSize⌋ + col) mod N) + 1`. -/
def createFallbackGrid (n bs : Nat) : Grid :=
  (List.range n).map fun row => (List.range n).map fun col =>
    (row * bs + row / bs + col) % n + 1

/-- Positions of row `r`. -/
def rowCells (n r : Nat) : List (Nat × Nat) := (List.range n).map fun c => (r, c)

/-- Positions of column `c`. -/
def colCells (n c : Nat) : List (Nat × Nat) := (List.range n).map fun r => (r, c)

/-- Positions of box `(br, bc)` in row-major order. -/
def boxCells (n br bc : Nat) : List (Nat × Nat) :=
  (List.range (bRows n * bCols n)).map fun k =>
    (br * bRows n + k / bCols n, bc * bCols n + k % bCols n)

/-- The values of a grid at a list of positions. -/
def valsAt (g : Grid) (ps : List (Nat × Nat)) : List Nat := ps.map fun p => cell g p.1 p.2

/-- A unit (row, column or box) is correct when each value `1..n` occurs exactly once. -/
def unitOk (n : Nat) (l : List Nat) : Bool := (List.range' 1 n).all fun v => l.count v == 1

/-- Spec validity invariant: every row, every column and every box of the
`n × n` grid contains each value `1..n` exactly once. -/
def validGrid (n : Nat) (g : Grid) : Bool :=
  ((List.range n).all fun r => unitOk n (valsAt g (rowCells n r))) &&
  ((List.range n).all fun c => unitOk n (valsAt g (colCells n c))) &&
  ((List.range (n / bRows n)).all fun br => (List.range (n / bCols n)).all fun bc =>
    unitOk n (valsAt g (boxCells n br bc)))

/-- Two positions lie in the same box. -/
def sameBox (n r c r' c' : Nat) : Prop :=
  r / bRows n = r' / bRows n ∧ c / bCols n = c' / bCols n

/-- Two positions share a row, a column or a box. -/
def sameUnit (n r c r' c' : Nat) : Prop := r = r' ∨ c = c' ∨ sameBox n r c r' c'

/-- No two distinct filled cells of the same unit hold the same value. -/
def Consistent (n : Nat) (g : Grid) : Prop :=
  ∀ r c r' c', r < n → c < n → r' < n → c' < n → sameUnit n r c r' c' →
    (r, c) ≠ (r', c') → cell g r c ≠ 0 → cell g r' c' ≠ 0 → cell g r c ≠ cell g r' c'

/-- Every cell is filled. -/
def Complete (n : Nat) (g : Grid) : Prop := ∀ r c, r < n → c < n → cell g r c ≠ 0

/-- Every cell value is at most `n`. -/
def ValuesIn (n : Nat) (g : Grid) : Prop := ∀ r c, r < n → c < n → cell g r c ≤ n

/-- One JS destructuring swap `[a[i], a[j]] = [a[j], a[i]]` (identity when an
index is out of range, which never happens in `shuffleArray`). -/
def swapL {α : Type} (l : List α) (i j : Nat) : List α :=
  match l[i]?, l[j]? with
  | some a, some b => (l.set i b).set j a
  | _, _ => l

/-- The loop of `shuffleArray` (source: `shuffleArray`), Fisher–Yates on a copy:
for `i` from `length-1` down to `1`, swap positions `i` and `j` where
`j = Math.floor(Math.random() * (i + 1))`, modelled as `rand s % (i + 1)` —
an arbitrary value in `0..i`, exactly the range of the JS draw.  The `Nat`
state is the cursor into the random stream. -/
def shuffleGo {α : Type} (rand : Nat → Nat) : Nat → List α → Nat → List α × Nat
  | 0, l, s => (l, s)
  | i + 1, l, s => shuffleGo rand i (swapL l (i + 1) (rand s % (i + 2))) (s + 1)

/-- `shuffleArray(array)` (source: `shuffleArray`). -/
def shuffleArray {α : Type} (rand : Nat → Nat) (l : List α) (s : Nat) : List α × Nat :=
  shuffleGo rand (l.length - 1) l s

/-- The `for (num of numbers)` loop of `fillGridRecursive`: try each candidate
in order; on a valid candidate place it and run the continuation (the recursive
call on the next cell); on its failure reset the cell to `0` and continue with
the next candidate.  `cont` receives the grid and the two stream cursors. -/
def tryNums (size boxSize row col : Nat)
    (cont : Grid → Nat → Nat → Bool × Grid × Nat × Nat) :
    List Nat → Grid → Nat → Nat → Bool × Grid × Nat × Nat
  | [], g, t, s => (false, g, t, s)
  | num :: rest, g, t, s =>
    if isValid size boxSize g row col num then
      match cont (place g row col num) t s with
      | (true, g', t', s') => (true, g', t', s')
      | (false, g', t', s') => tryNums size boxSize row col cont rest (setZero g' row col) t' s'
    else tryNums size boxSize row col cont rest g t s

/-- The body of `fillGridRecursive(row, col, startTime, timeout)` (source:
`fillGridRecursive`), structurally recursive on an auxiliary fuel so that it
evaluates by kernel reduction.  The cursor `(row, col)` advances through the
grid in row-major order and every recursive call strictly decreases
`(size - row)·(size + 1) + (size - col)`, so with the canonical fuel used by
`fillGridRecursive` below the `0` case is unreachable and the function
satisfies exactly the source recurrence (`fillRec_congr`).

Reads the clock once per call; aborts with `false` when
`Date.now() - startTime > timeout` (truncated `Nat` subtraction agrees with
the JS comparison for the monotone clocks of interest, and the branch taken is
identical whenever the reading does not exceed `startTime + timeout`). -/
def fillRec (size boxSize : Nat) (clock rand : Nat → Nat)
    (startTime timeout : Nat) :
    Nat → Nat → Nat → Grid → Nat → Nat → Bool × Grid × Nat × Nat
  | 0, _, _, g, t, s => (false, g, t + 1, s)
  | fuel + 1, row, col, g, t, s =>
    if clock t - startTime > timeout then
      (false, g, t + 1, s)
    else if size ≤ row then
      (true, g, t + 1, s)
    else if size ≤ col then
      fillRec size boxSize clock rand startTime timeout fuel (row + 1) 0 g (t + 1) s
    else if cell g row col ≠ 0 then
      fillRec size boxSize clock rand startTime timeout fuel row (col + 1) g (t + 1) s
    else
      let sh := shuffleArray rand (List.range' 1 size) s
      tryNums size boxSize row col
        (fun g' t' s' =>
          fillRec size boxSize clock rand startTime timeout fuel row (col + 1) g' t' s')
        sh.1 g (t + 1) sh.2

/-- The fuel which makes `fillRec` run to completion from `(row, col)`:
one more than the length of the longest chain of recursive calls. -/
def fillFuel (size row col : Nat) : Nat :=
  (size - row) * (size + 1) + (size - col) + 1

/-- `fillGridRecursive(row, col, startTime, timeout)`: `fillRec` with its
canonical fuel.  The source guards `row === size` / `col === size` appear as
`size ≤ row` / `size ≤ col`; they coincide on every state reachable from the
initial call `(0, 0)`, where the indices only ever grow up to `size`. -/
def fillGridRecursive (size boxSize : Nat) (clock rand : Nat → Nat)
    (startTime timeout : Nat) (row col : Nat) (g : Grid) (t s : Nat) :
    Bool × Grid × Nat × Nat :=
  fillRec size boxSize clock rand startTime timeout (fillFuel size row col) row col g t s

/-- `fillGrid()` (source: `fillGrid`): read the start time, then run the
recursive fill from `(0, 0)` with a 5000 ms budget. -/
def fillGrid (size boxSize : Nat) (clock rand : Nat → Nat) (g : Grid)
    (t s : Nat) : Bool × Grid × Nat × Nat :=
  fillGridRecursive size boxSize clock rand (clock t) 5000 0 0 g (t + 1) s

/-- The retry loop of `generateComplete` (source: `generateComplete`):
up to `attempts` tries of `fillGrid` on a fresh empty grid; when they are
exhausted, the deterministic fallback grid. -/
def generateCompleteAux (size boxSize : Nat) (clock rand : Nat → Nat) :
    Nat → Nat → Nat → Grid × Nat × Nat
  | 0, t, s => (createFallbackGrid size boxSize, t, s)
  | attempts + 1, t, s =>
    match fillGrid size boxSize clock rand (emptyGrid size) t s with
    | (true, g, t', s') => (g, t', s')
    | (false, _, t', s') => generateCompleteAux size boxSize clock rand attempts t' s'

/-- `generateComplete()` with `maxAttempts = 10`; also the value copied into
`this.solution`. -/
def generateComplete (size boxSize : Nat) (clock rand : Nat → Nat)
    (t s : Nat) : Grid × Nat × Nat :=
  generateCompleteAux size boxSize clock rand 10 t s

/-- All positions of an `n × n` grid in row-major order (`List.product` is
exactly the source's nested `for (i) for (j) positions.push([i, j])` loop). -/
def allCells (n : Nat) : List (Nat × Nat) := (List.range n).product (List.range n)

/-- The row-major scan for the first empty cell in `solvePuzzle`. -/
def findEmpty (g : Grid) : Option (Nat × Nat) :=
  (allCells g.length).find? fun p => cell g p.1 p.2 == 0

/-- Number of empty cells among the `size × size` positions scanned by the
solver.  Used as fuel: each recursive call of the source `solvePuzzle` happens
on a grid with one more cell filled, so the recursion depth is bounded by the
number of empty cells; `solveFuel_congr` below shows any sufficient fuel gives
the same result, so the fuelled function is exactly the source recursion. -/
def countZeros (g : Grid) : Nat :=
  (allCells g.length).countP fun p => cell g p.1 p.2 == 0

/-- The `for (num = 1; num <= size; num++)` loop of `solvePuzzle`:
place a valid candidate and run `solveNext` (the recursive `solvePuzzle`
call); on its failure reset the cell to `0` and continue; when candidates
run out, report failure. -/
def solveGo (solveNext : Grid → Bool × Grid) (r c : Nat) :
    List Nat → Grid → Bool × Grid
  | [], g => (false, g)
  | num :: rest, g =>
    if isValidForGrid g r c num then
      match solveNext (place g r c num) with
      | (true, g') => (true, g')
      | (false, g') => solveGo solveNext r c rest (setZero g' r c)
    else solveGo solveNext r c rest g

/-- `solvePuzzle(grid)` (source: `solvePuzzle`): find the first empty cell in
row-major order; if none, report solved; otherwise try `num = 1..size` in
ascending order.  Structurally recursive on a fuel: every source-level
recursive call happens on a grid with one more cell filled, so any fuel
exceeding the number of empty cells gives the behaviour of the source
recursion (`solveFuel_congr` below), and `solvePuzzle` instantiates the fuel
with `countZeros g + 1`. -/
def solveFuel : Nat → Grid → Bool × Grid
  | 0, g => (false, g)
  | fuel + 1, g =>
    match findEmpty g with
    | none => (true, g)
    | some (r, c) => solveGo (solveFuel fuel) r c (List.range' 1 g.length) g

/-- `solvePuzzle(grid)`, with the canonical sufficient fuel. -/
def solvePuzzle (g : Grid) : Bool × Grid := solveFuel (countZeros g + 1) g

/-- Arithmetic facts about the box geometry, true for every supported size. -/
def GoodGeom (n : Nat) : Prop :=
  0 < bRows n ∧ 0 < bCols n ∧ bRows n ∣ n ∧ bCols n ∣ n ∧ bRows n * bCols n = n

/-- `g` agrees with `s` on its filled cells (`g` is `s` with some cells cleared). -/
def ExtendsTo (n : Nat) (g s : Grid) : Prop :=
  ∀ r c, r < n → c < n → cell g r c ≠ 0 → cell g r c = cell s r c

/-- The filler's invariant after a successful call at cursor `(row, col)`:
well-formedness, consistency and value bounds are preserved, every cell at or
after the cursor (row-major) is filled, and every cell before the cursor is
untouched. -/
def FillPost (size row col : Nat) (g g' : Grid) : Prop :=
  wf size g' ∧ Consistent size g' ∧ ValuesIn size g' ∧
    (∀ a b, a < size → b < size → (row < a ∨ (row = a ∧ col ≤ b)) → cell g' a b ≠ 0) ∧
    (∀ a b, a < size → b < size → ¬(row < a ∨ (row = a ∧ col ≤ b)) →
      cell g' a b = cell g a b)

/-- The removal percentage table of `generatePuzzle`, as a numerator over 100:
`{1: 30, 2: 40, 3: 50, 4: 60, 5: 65}`, any other difficulty `60`.  (The JS
table holds the binary doubles 0.3, 0.4, 0.5, 0.6, 0.65; for every supported
size `N ∈ {4, 6, 9}` the float product `N²·p` floors to the same integer as
the exact rational `N²·p`, checked case by case, so exact arithmetic is a
faithful model on the supported inputs.) -/
def removalNum (difficulty : Nat) : Nat :=
  if difficulty = 1 then 30
  else if difficulty = 2 then 40
  else if difficulty = 3 then 50
  else if difficulty = 4 then 60
  else if difficulty = 5 then 65
  else 60

/-- Zero out the listed positions (the removal loop of `generatePuzzle`). -/
def removeAll (g : Grid) (ps : List (Nat × Nat)) : Grid :=
  ps.foldl (fun h p => setZero h p.1 p.2) g

/-- `generatePuzzle(difficulty, size)` (source: `generatePuzzle`): set the
size, generate a complete grid, copy it as the puzzle, compute
`toRemove = ⌊totalCells · percentage⌋`, shuffle all positions, zero the first
`toRemove` of them (`i < toRemove && i < positions.length`, i.e. a clamped
`take`).  Returns `(puzzle, solution)` plus the two stream cursors. -/
def generatePuzzle (difficulty size : Nat) (clock rand : Nat → Nat)
    (t s : Nat) : Grid × Grid × Nat × Nat :=
  let (sol, t', s') := generateComplete size (boxSizeOf size) clock rand t s
  let totalCells := size * size
  let toRemove := totalCells * removalNum difficulty / 100
  let (shuffled, s'') := shuffleArray rand (allCells size) s'
  (removeAll sol (shuffled.take toRemove), sol, t', s'')

/-- The `emptyCells` list built by `getHint`: all positions of the scanned
`size × size` square whose cell is `0`, in row-major order. -/
def emptyCellsOf (g : Grid) : List (Nat × Nat) :=
  (allCells g.length).filter fun p => cell g p.1 p.2 == 0

/-- `getHint(currentGrid, solution)` (source: `getHint`): collect the empty
cells of `currentGrid`; if none return `none`; otherwise return a random empty
position together with the solution's value there.
`Math.floor(Math.random() * emptyCells.length)` is modelled as
`pick % emptyCells.length`, an arbitrary in-range index. -/
def getHint (currentGrid solution : Grid) (pick : Nat) : Option (Nat × Nat × Nat) :=
  if (emptyCellsOf currentGrid).isEmpty then none
  else
    let p := (emptyCellsOf currentGrid).getD
      (pick % (emptyCellsOf currentGrid).length) (0, 0)
    some (p.1, p.2, cell solution p.1 p.2)

/-! ## Theorems -/

theorem length_place (g : Grid) (r c v : Nat) : (place g r c v).length = g.length := by
  simp [place]

theorem row_length (n : Nat) (g : Grid) (hw : wf n g) (r : Nat) (hr : r < n) :
    (g[r]?.getD []).length = n := by
  obtain ⟨hlen, hrows⟩ := hw
  have hrl : r < g.length := by omega
  rw [List.getElem?_eq_getElem hrl, Option.getD_some]
  exact hrows _ (List.getElem_mem hrl)

theorem wf_place (n : Nat) (g : Grid) (r c v : Nat) (hw : wf n g) :
    wf n (place g r c v) := by
  obtain ⟨hlen, hrows⟩ := hw
  refine ⟨by simp [place, hlen], ?_⟩
  intro row hrow
  by_cases hr : r < g.length
  · rcases List.mem_or_eq_of_mem_set hrow with h | h
    · exact hrows _ h
    · subst h
      simp only [List.length_set]
      rw [List.getElem?_eq_getElem hr, Option.getD_some]
      exact hrows _ (List.getElem_mem hr)
  · rw [place, List.set_eq_of_length_le (by omega)] at hrow
    exact hrows _ hrow

theorem cell_place_self (n : Nat) (g : Grid) (hw : wf n g) (r c v : Nat)
    (hr : r < n) (hc : c < n) : cell (place g r c v) r c = v := by
  have hrl : r < g.length := by rw [hw.1]; omega
  have hcl : c < (g[r]?.getD []).length := by rw [row_length n g hw r hr]; omega
  unfold cell place
  rw [List.getElem?_set_self hrl, Option.getD_some,
    List.getElem?_set_self hcl, Option.getD_some]

theorem cell_place_ne (g : Grid) (r c v r' c' : Nat) (h : r' ≠ r ∨ c' ≠ c) :
    cell (place g r' c' v) r c = cell g r c := by
  unfold cell place
  rcases h with h | h
  · rw [List.getElem?_set_ne (by omega)]
  · by_cases hr : r = r'
    · subst hr
      by_cases hrl : r < g.length
      · rw [List.getElem?_set_self (by omega), Option.getD_some,
          List.getElem?_set_ne (by omega)]
      · rw [List.set_eq_of_length_le (by omega)]
    · rw [List.getElem?_set_ne (by omega)]

theorem list_set_self {α : Type} (l : List α) (i : Nat) (a : α)
    (h : l[i]? = some a) : l.set i a = l := by
  have hi : i < l.length := by
    by_contra hc
    rw [List.getElem?_eq_none (by omega)] at h
    exact Option.noConfusion h
  apply List.ext_getElem?
  intro j
  by_cases hij : i = j
  · subst hij
    rw [List.getElem?_set_self hi]
    exact h.symm
  · rw [List.getElem?_set_ne hij]

/-- Undoing a placement restores the grid exactly (`grid[row][col] = 0` after
`grid[row][col] = num`, given the cell was empty before). -/
theorem setZero_place (n : Nat) (g : Grid) (hw : wf n g) (r c v : Nat)
    (hr : r < n) (hc : c < n) (h0 : cell g r c = 0) :
    setZero (place g r c v) r c = g := by
  have hrl : r < g.length := by rw [hw.1]; omega
  have hcl : c < (g[r]?.getD []).length := by rw [row_length n g hw r hr]; omega
  have hrow : (g[r]?.getD [])[c]? = some 0 := by
    rw [List.getElem?_eq_getElem hcl]
    have : cell g r c = (g[r]?.getD [])[c] := by
      unfold cell
      rw [List.getElem?_eq_getElem hcl, Option.getD_some]
    rw [← this, h0]
  unfold setZero place
  rw [List.getElem?_set_self hrl, Option.getD_some, List.set_set, List.set_set,
    list_set_self _ _ _ hrow, list_set_self _ _ _ (by simp [List.getElem?_eq_getElem hrl])]

theorem cell_emptyGrid (n r c : Nat) : cell (emptyGrid n) r c = 0 := by
  unfold cell emptyGrid
  rw [List.getElem?_replicate]
  by_cases hr : r < n <;> by_cases hc : c < n <;>
    simp [hr, hc, List.getElem?_replicate]

theorem wf_emptyGrid (n : Nat) : wf n (emptyGrid n) := by
  constructor
  · simp [emptyGrid]
  · intro row hrow
    rw [List.eq_of_mem_replicate hrow]
    simp

theorem consistent_emptyGrid (n : Nat) : Consistent n (emptyGrid n) := by
  intro r c r' c' _ _ _ _ _ _ h0 _
  exact absurd (cell_emptyGrid n r c) h0

theorem valuesIn_emptyGrid (n : Nat) : ValuesIn n (emptyGrid n) := by
  intro r c _ _
  rw [cell_emptyGrid]
  exact Nat.zero_le n

/-- C2: the deterministic fallback grid `((row·boxSize + ⌊row/boxSize⌋ + col) mod N) + 1`
satisfies the validity invariant for `N = 4` and `N = 9`, but NOT for the supported
size `N = 6`: there rows 0 and 5 receive the same cyclic shift
(`5·2 + ⌊5/2⌋ = 12 ≡ 0 (mod 6)`), so every column and several boxes contain
duplicates, and `generateComplete` returns this invalid grid when all ten fill
attempts fail.  This contradicts the claim (and the source comment
"guaranteed to be valid") at `N = 6`. -/
theorem claim2_fallback_validity :
    validGrid 4 (createFallbackGrid 4 (boxSizeOf 4)) = true ∧
    validGrid 9 (createFallbackGrid 9 (boxSizeOf 9)) = true ∧
    validGrid 6 (createFallbackGrid 6 (boxSizeOf 6)) = false ∧
    cell (createFallbackGrid 6 (boxSizeOf 6)) 0 0 = 1 ∧
    cell (createFallbackGrid 6 (boxSizeOf 6)) 5 0 = 1 := by
  refine ⟨by decide, by decide, by decide, by decide, by decide⟩

theorem length_swapL {α : Type} (l : List α) (i j : Nat) :
    (swapL l i j).length = l.length := by
  unfold swapL
  rcases hi : l[i]? with _ | a <;> rcases hj : l[j]? with _ | b <;> simp

theorem swapL_perm {α : Type} [DecidableEq α] (l : List α) (i j : Nat) :
    (swapL l i j).Perm l := by
  unfold swapL
  rcases hi : l[i]? with _ | a <;> rcases hj : l[j]? with _ | b <;> try exact List.Perm.refl l
  have hil : i < l.length := by
    by_contra hc
    rw [List.getElem?_eq_none (by omega)] at hi
    exact Option.noConfusion hi
  have hjl : j < l.length := by
    by_contra hc
    rw [List.getElem?_eq_none (by omega)] at hj
    exact Option.noConfusion hj
  have ha : l[i] = a := by rw [List.getElem?_eq_getElem hil] at hi; simpa using hi
  have hb : l[j] = b := by rw [List.getElem?_eq_getElem hjl] at hj; simpa using hj
  show ((l.set i b).set j a).Perm l
  rw [List.perm_iff_count]
  intro x
  have h1 : j < (l.set i b).length := by simpa using hjl
  rw [List.count_set a x (l.set i b) j h1, List.count_set b x l i hil]
  have hmem_i : l[i] ∈ l := List.getElem_mem hil
  have hca : l[i] = x → 1 ≤ l.count x := by
    intro h
    exact List.count_pos_iff.mpr (h ▸ hmem_i)
  by_cases hij : i = j
  · subst hij
    have hab : a = b := by rw [← ha, ← hb]
    rw [List.getElem_set_self (by simpa using hjl)]
    by_cases hax : a = x
    · have hbx : b = x := by rw [← hab, hax]
      have hlix : l[i] = x := by rw [ha, hax]
      have h1 := hca hlix
      simp only [hax, hbx, hlix, beq_self_eq_true, if_pos]
      omega
    · have hbx : ¬b = x := fun h => hax (by rw [hab, h])
      have hlix : ¬l[i] = x := fun h => hax (by rw [← ha, h])
      simp [hax, hbx, hlix]
  · rw [List.getElem_set_ne (by omega)]
    rw [show l[j] = b from hb]
    by_cases hax : a = x
    · have hlix : l[i] = x := by rw [ha, hax]
      have h1 := hca hlix
      by_cases hbx : b = x
      · simp only [hax, hbx, hlix, beq_self_eq_true, if_pos]
        omega
      · simp only [hax, beq_self_eq_true, if_pos, hlix]
        simp only [show (b == x) = false from beq_eq_false_iff_ne.mpr hbx]
        simp
        omega
    · have hlix : ¬l[i] = x := fun h => hax (by rw [← ha, h])
      by_cases hbx : b = x
      · simp only [show (a == x) = false from beq_eq_false_iff_ne.mpr hax,
          show (l[i] == x) = false from beq_eq_false_iff_ne.mpr hlix,
          show (b == x) = true from beq_iff_eq.mpr hbx]
        simp
      · simp [hax, hbx, hlix]

theorem shuffleGo_perm {α : Type} [DecidableEq α] (rand : Nat → Nat) :
    ∀ (i : Nat) (l : List α) (s : Nat), ((shuffleGo rand i l s).1).Perm l := by
  intro i
  induction i with
  | zero => intro l s; exact List.Perm.refl l
  | succ i ih =>
    intro l s
    exact (ih _ _).trans (swapL_perm l (i + 1) (rand s % (i + 2)))

/-- The shuffled list is a permutation of the input, for every random stream. -/
theorem shuffleArray_perm {α : Type} [DecidableEq α] (rand : Nat → Nat)
    (l : List α) (s : Nat) : ((shuffleArray rand l s).1).Perm l :=
  shuffleGo_perm rand (l.length - 1) l s

theorem tryNums_congr (size boxSize row col : Nat)
    (cont₁ cont₂ : Grid → Nat → Nat → Bool × Grid × Nat × Nat)
    (h : ∀ g t s, cont₁ g t s = cont₂ g t s) :
    ∀ nums g t s, tryNums size boxSize row col cont₁ nums g t s
      = tryNums size boxSize row col cont₂ nums g t s := by
  intro nums
  induction nums with
  | nil => intro g t s; rfl
  | cons num rest ih =>
    intro g t s
    rw [tryNums, tryNums]
    by_cases hv : isValid size boxSize g row col num = true
    · rw [if_pos hv, if_pos hv, h (place g row col num) t s]
      rcases cont₂ (place g row col num) t s with ⟨b, g', t', s'⟩
      cases b
      · exact ih _ _ _
      · rfl
    · rw [if_neg hv, if_neg hv]
      exact ih _ _ _

/-- Fuel-irrelevance: any two sufficient fuels give the same run of `fillRec`,
so `fillGridRecursive` (canonical fuel) satisfies the source recurrence. -/
theorem fillRec_congr (size boxSize : Nat) (clock rand : Nat → Nat)
    (startTime timeout : Nat) :
    ∀ fuel₁ fuel₂ row col g t s,
      (size - row) * (size + 1) + (size - col) < fuel₁ →
      (size - row) * (size + 1) + (size - col) < fuel₂ →
      fillRec size boxSize clock rand startTime timeout fuel₁ row col g t s
        = fillRec size boxSize clock rand startTime timeout fuel₂ row col g t s := by
  intro fuel₁
  induction fuel₁ with
  | zero => intro fuel₂ row col g t s h1 _; omega
  | succ f ih =>
    intro fuel₂ row col g t s h1 h2
    obtain ⟨f₂, rfl⟩ : ∃ k, fuel₂ = k + 1 := ⟨fuel₂ - 1, by omega⟩
    rw [fillRec, fillRec]
    by_cases htime : clock t - startTime > timeout
    · rw [if_pos htime, if_pos htime]
    · rw [if_neg htime, if_neg htime]
      by_cases hrow : size ≤ row
      · rw [if_pos hrow, if_pos hrow]
      · rw [if_neg hrow, if_neg hrow]
        have hsplit : (size - row) * (size + 1)
            = (size - (row + 1)) * (size + 1) + (size + 1) := by
          have hsr : size - row = (size - (row + 1)) + 1 := by omega
          rw [hsr, Nat.add_mul, one_mul]
        by_cases hcol : size ≤ col
        · rw [if_pos hcol, if_pos hcol]
          exact ih _ _ _ _ _ _ (by omega) (by omega)
        · rw [if_neg hcol, if_neg hcol]
          by_cases hcell : cell g row col ≠ 0
          · rw [if_pos hcell, if_pos hcell]
            exact ih _ _ _ _ _ _ (by omega) (by omega)
          · rw [if_neg hcell, if_neg hcell]
            exact tryNums_congr _ _ _ _ _ _
              (fun g' t' s' => ih _ _ _ _ _ _ (by omega) (by omega)) _ _ _ _

/-- `fillGridRecursive` satisfies, literally, the recurrence of the source
function: this is the shape a by-hand reading of the JS gives. -/
theorem fillGridRecursive_eq (size boxSize : Nat) (clock rand : Nat → Nat)
    (startTime timeout row col : Nat) (g : Grid) (t s : Nat) :
    fillGridRecursive size boxSize clock rand startTime timeout row col g t s =
    if clock t - startTime > timeout then
      (false, g, t + 1, s)
    else if size ≤ row then
      (true, g, t + 1, s)
    else if size ≤ col then
      fillGridRecursive size boxSize clock rand startTime timeout (row + 1) 0 g (t + 1) s
    else if cell g row col ≠ 0 then
      fillGridRecursive size boxSize clock rand startTime timeout row (col + 1) g (t + 1) s
    else
      let sh := shuffleArray rand (List.range' 1 size) s
      tryNums size boxSize row col
        (fun g' t' s' =>
          fillGridRecursive size boxSize clock rand startTime timeout row (col + 1) g' t' s')
        sh.1 g (t + 1) sh.2 := by
  have hwrap : ∀ row' col' g' t' s',
      fillGridRecursive size boxSize clock rand startTime timeout row' col' g' t' s'
        = fillRec size boxSize clock rand startTime timeout
            ((size - row') * (size + 1) + (size - col') + 1) row' col' g' t' s' :=
    fun _ _ _ _ _ => rfl
  rw [hwrap row col g t s, fillRec]
  by_cases htime : clock t - startTime > timeout
  · rw [if_pos htime, if_pos htime]
  · rw [if_neg htime, if_neg htime]
    by_cases hrow : size ≤ row
    · rw [if_pos hrow, if_pos hrow]
    · rw [if_neg hrow, if_neg hrow]
      have hsplit : (size - row) * (size + 1)
          = (size - (row + 1)) * (size + 1) + (size + 1) := by
        have hsr : size - row = (size - (row + 1)) + 1 := by omega
        rw [hsr, Nat.add_mul, one_mul]
      by_cases hcol : size ≤ col
      · rw [if_pos hcol, if_pos hcol, hwrap]
        exact fillRec_congr _ _ _ _ _ _ _ _ _ _ _ _ _ (by omega) (by omega)
      · rw [if_neg hcol, if_neg hcol]
        by_cases hcell : cell g row col ≠ 0
        · rw [if_pos hcell, if_pos hcell, hwrap]
          exact fillRec_congr _ _ _ _ _ _ _ _ _ _ _ _ _ (by omega) (by omega)
        · rw [if_neg hcell, if_neg hcell]
          exact tryNums_congr _ _ _ _ _ _
            (fun g' t' s' => by
              rw [hwrap]
              exact fillRec_congr _ _ _ _ _ _ _ _ _ _ _ _ _ (by omega) (by omega)) _ _ _ _

theorem mem_allCells (n : Nat) (p : Nat × Nat) :
    p ∈ allCells n ↔ p.1 < n ∧ p.2 < n := by
  rcases p with ⟨r, c⟩
  show (r, c) ∈ (List.range n) ×ˢ (List.range n) ↔ _
  rw [List.mem_product]
  simp [List.mem_range]

theorem nodup_allCells (n : Nat) : (allCells n).Nodup :=
  (List.nodup_range n).product (List.nodup_range n)

theorem length_allCells (n : Nat) : (allCells n).length = n * n := by
  show ((List.range n) ×ˢ (List.range n)).length = n * n
  rw [List.length_product]
  simp

theorem findEmpty_some (g : Grid) (r c : Nat) (h : findEmpty g = some (r, c)) :
    r < g.length ∧ c < g.length ∧ cell g r c = 0 := by
  have hmem := List.mem_of_find?_eq_some h
  have hp := List.find?_some h
  rw [mem_allCells] at hmem
  simp only [beq_iff_eq] at hp
  exact ⟨hmem.1, hmem.2, hp⟩

theorem findEmpty_none (g : Grid) :
    findEmpty g = none ↔ ∀ r c, r < g.length → c < g.length → cell g r c ≠ 0 := by
  unfold findEmpty
  rw [List.find?_eq_none]
  constructor
  · intro h r c hr hc
    have := h (r, c) ((mem_allCells _ _).mpr ⟨hr, hc⟩)
    simpa using this
  · intro h p hp
    rw [mem_allCells] at hp
    simpa using h p.1 p.2 hp.1 hp.2

theorem countZeros_pos_of_findEmpty (g : Grid) (r c : Nat)
    (h : findEmpty g = some (r, c)) : 1 ≤ countZeros g := by
  have hmem := List.mem_of_find?_eq_some h
  have hp := List.find?_some h
  unfold countZeros
  rw [Nat.succ_le, List.countP_pos_iff]
  exact ⟨(r, c), hmem, hp⟩

/-- Counting with two predicates that differ exactly at one list member. -/
theorem countP_pointwise_succ {α : Type} (p q : α → Bool) :
    ∀ (l : List α) (x : α), l.Nodup → x ∈ l → (∀ y ∈ l, y ≠ x → p y = q y) →
      p x = true → q x = false → l.countP p = l.countP q + 1 := by
  intro l
  induction l with
  | nil => intro x _ hx; exact absurd hx (List.not_mem_nil x)
  | cons a l ih =>
    intro x hnd hx hoff hpx hqx
    rcases List.mem_cons.mp hx with rfl | hxl
    · have hoffl : ∀ y ∈ l, p y = q y := by
        intro y hy
        have : y ≠ x := by
          intro hyx
          exact (List.nodup_cons.mp hnd).1 (hyx ▸ hy)
        exact hoff y (List.mem_cons_of_mem _ hy) this
      rw [List.countP_cons, List.countP_cons, hpx, hqx,
        List.countP_congr fun y hy => by rw [hoffl y hy]]
      simp
    · have hax : a ≠ x := by
        intro h
        exact (List.nodup_cons.mp hnd).1 (h ▸ hxl)
      rw [List.countP_cons, List.countP_cons,
        ih x (List.nodup_cons.mp hnd).2 hxl
          (fun y hy hyx => hoff y (List.mem_cons_of_mem _ hy) hyx) hpx hqx,
        hoff a (List.mem_cons_self a l) hax]
      omega

theorem countZeros_place (n : Nat) (g : Grid) (hw : wf n g) (r c v : Nat)
    (hr : r < n) (hc : c < n) (h0 : cell g r c = 0) (hv : v ≠ 0) :
    countZeros g = countZeros (place g r c v) + 1 := by
  unfold countZeros
  rw [length_place, hw.1]
  have hlen : g.length = n := hw.1
  apply countP_pointwise_succ _ _ (allCells n) (r, c) (nodup_allCells n)
    ((mem_allCells _ _).mpr ⟨hr, hc⟩)
  · intro y _ hne
    have hor : r ≠ y.1 ∨ c ≠ y.2 := by
      by_contra hcon
      push_neg at hcon
      rcases y with ⟨y1, y2⟩
      simp only at hcon
      exact hne (by simp [hcon.1.symm, hcon.2.symm])
    show (cell g y.1 y.2 == 0) = (cell (place g r c v) y.1 y.2 == 0)
    rw [cell_place_ne g y.1 y.2 v r c hor]
  · simpa using h0
  · have := cell_place_self n g hw r c v hr hc
    simp [this, hv]

/-- The row scan of the validator includes the target cell itself, so a valid
placement value always differs from the current cell value. -/
theorem isValid_ne_self (size bs : Nat) (g : Grid) (r c num : Nat) (hc : c < size)
    (h : isValid size bs g r c num = true) : cell g r c ≠ num := by
  unfold isValid at h
  simp only [Bool.and_eq_true, List.all_eq_true] at h
  have := h.1.1 c (List.mem_range.mpr hc)
  simpa [bne_iff_ne] using this

theorem isValidForGrid_ne_self (g : Grid) (r c num : Nat) (hc : c < g.length)
    (h : isValidForGrid g r c num = true) : cell g r c ≠ num :=
  isValid_ne_self _ _ _ _ _ _ hc h

/-- If the inner candidate loop fails, the grid is exactly restored
(each iteration undoes its own placement). -/
theorem solveGo_restore (n r c : Nat) (solveNext : Grid → Bool × Grid)
    (Hnext : ∀ h h', wf n h → solveNext h = (false, h') → h' = h) :
    ∀ (nums : List Nat) (g g' : Grid), wf n g → r < n → c < n → cell g r c = 0 →
      solveGo solveNext r c nums g = (false, g') → g' = g := by
  intro nums
  induction nums with
  | nil =>
    intro g g' _ _ _ _ h
    rw [solveGo] at h
    injection h with _ h2
    exact h2.symm
  | cons num rest ih =>
    intro g g' hw hr hc h0 h
    rw [solveGo] at h
    by_cases hv : isValidForGrid g r c num = true
    · rw [if_pos hv] at h
      rcases hres : solveNext (place g r c num) with ⟨b, h1⟩
      rw [hres] at h
      cases b
      · have h2 : solveGo solveNext r c rest (setZero h1 r c) = (false, g') := h
        have h1eq : h1 = place g r c num := Hnext _ _ (wf_place n g r c num hw) hres
        rw [h1eq, setZero_place n g hw r c num hr hc h0] at h2
        exact ih g g' hw hr hc h0 h2
      · have h2 : ((true, h1) : Bool × Grid) = (false, g') := h
        exact absurd h2 (by simp)
    · rw [if_neg hv] at h
      exact ih g g' hw hr hc h0 h

/-- C4, in fuelled form: a failed solve returns the grid unchanged. -/
theorem solveFuel_restore (n : Nat) :
    ∀ (fuel : Nat) (g g' : Grid), wf n g → solveFuel fuel g = (false, g') → g' = g := by
  intro fuel
  induction fuel with
  | zero =>
    intro g g' _ h
    rw [solveFuel] at h
    injection h with _ h2
    exact h2.symm
  | succ f ih =>
    intro g g' hw h
    rw [solveFuel] at h
    rcases hfe : findEmpty g with _ | ⟨r, c⟩
    · rw [hfe] at h
      have h2 : ((true, g) : Bool × Grid) = (false, g') := h
      exact absurd h2 (by simp)
    · rw [hfe] at h
      have h2 : solveGo (solveFuel f) r c (List.range' 1 g.length) g = (false, g') := h
      obtain ⟨hr, hc, h0⟩ := findEmpty_some g r c hfe
      rw [hw.1] at hr hc
      exact solveGo_restore n r c (solveFuel f) (fun h h' hwh => ih h h' hwh)
        _ g g' hw hr hc h0 h2

/-- The candidate loop only depends on the behaviour of `solveNext` at the
grids it actually passes to it. -/
theorem solveGo_congr (r c : Nat) (s₁ s₂ : Grid → Bool × Grid) (g : Grid)
    (Hres : ∀ num h', isValidForGrid g r c num = true →
      s₁ (place g r c num) = (false, h') → h' = place g r c num)
    (H : ∀ num, isValidForGrid g r c num = true →
      s₁ (place g r c num) = s₂ (place g r c num))
    (Hz : ∀ num, setZero (place g r c num) r c = g) :
    ∀ nums, solveGo s₁ r c nums g = solveGo s₂ r c nums g := by
  intro nums
  induction nums with
  | nil => rfl
  | cons num rest ih =>
    rw [solveGo, solveGo]
    by_cases hv : isValidForGrid g r c num = true
    · rw [if_pos hv, if_pos hv, ← H num hv]
      rcases hres : s₁ (place g r c num) with ⟨b, h1⟩
      cases b
      · show solveGo s₁ r c rest (setZero h1 r c) = solveGo s₂ r c rest (setZero h1 r c)
        rw [Hres num h1 hv hres, Hz num]
        exact ih
      · rfl
    · rw [if_neg hv, if_neg hv]
      exact ih

/-- Fuel-irrelevance for the solver: with any fuel exceeding the number of
empty cells, `solveFuel` computes the source recursion. -/
theorem solveFuel_congr (n : Nat) :
    ∀ (f₁ f₂ : Nat) (g : Grid), wf n g → countZeros g < f₁ → countZeros g < f₂ →
      solveFuel f₁ g = solveFuel f₂ g := by
  intro f₁
  induction f₁ with
  | zero => intro f₂ g _ h1 _; omega
  | succ f ih =>
    intro f₂ g hw h1 h2
    obtain ⟨k, rfl⟩ : ∃ k, f₂ = k + 1 := ⟨f₂ - 1, by omega⟩
    rw [solveFuel, solveFuel]
    rcases hfe : findEmpty g with _ | ⟨r, c⟩
    · rfl
    · obtain ⟨hr, hc, h0⟩ := findEmpty_some g r c hfe
      have hrn : r < n := hw.1 ▸ hr
      have hcn : c < n := hw.1 ▸ hc
      have hpos := countZeros_pos_of_findEmpty g r c hfe
      apply solveGo_congr r c (solveFuel f) (solveFuel k) g
      · intro num h' hv hres
        exact solveFuel_restore n f _ _ (wf_place n g r c num hw) hres
      · intro num hv
        have hnum : num ≠ 0 := fun hz =>
          isValidForGrid_ne_self g r c num hc hv (hz ▸ h0)
        have hcz := countZeros_place n g hw r c num hrn hcn h0 hnum
        exact ih k _ (wf_place n g r c num hw) (by omega) (by omega)
      · intro num
        exact setZero_place n g hw r c num hrn hcn h0

theorem goodGeom_of_supported (n : Nat) (h : Supported n) : GoodGeom n := by
  rcases h with rfl | rfl | rfl <;>
    exact ⟨by decide, by decide, by decide, by decide, by decide⟩

/-- On the `(size, boxSize)` pairs configured by `setSize`, the internal
validator coincides with its `bRows`/`bCols` restatement. -/
theorem isValid_eq_geom (n bs : Nat) (h : SuppPair n bs) (g : Grid) (r c num : Nat) :
    isValid n bs g r c num = isValidGeom n g r c num := by
  rcases h with ⟨rfl, rfl⟩ | ⟨rfl, rfl⟩ | ⟨rfl, rfl⟩ <;> rfl

/-- On grids of a supported length, `isValidForGrid` also coincides with the
`bRows`/`bCols` restatement. -/
theorem isValidForGrid_eq_geom (n : Nat) (hn : Supported n) (g : Grid)
    (hlen : g.length = n) (r c num : Nat) :
    isValidForGrid g r c num = isValidGeom n g r c num := by
  unfold isValidForGrid
  rw [hlen]
  rcases hn with rfl | rfl | rfl <;> rfl

theorem div_mul_add_lt (b n q i : Nat) (hb : 0 < b) (hd : b ∣ n) (hq : q < n)
    (hi : i < b) : q / b * b + i < n := by
  obtain ⟨m, rfl⟩ := hd
  have h1 : q / b < m := by
    rw [Nat.div_lt_iff_lt_mul hb]
    calc q < b * m := hq
    _ = m * b := Nat.mul_comm b m
  calc q / b * b + i < q / b * b + b := by omega
  _ = (q / b + 1) * b := by ring
  _ ≤ m * b := Nat.mul_le_mul_right b (by omega)
  _ = b * m := Nat.mul_comm m b

theorem div_mul_add_div (b q i : Nat) (hb : 0 < b) (hi : i < b) :
    (q / b * b + i) / b = q / b := by
  rw [Nat.mul_comm (q / b) b, Nat.mul_add_div hb, Nat.div_eq_of_lt hi, Nat.add_zero]

theorem div_mul_add_mod (b q : Nat) (hb : 0 < b) : q / b * b + q % b = q := by
  rw [Nat.mul_comm (q / b) b]
  exact Nat.div_add_mod q b

theorem ne_pair_or (a b r c : Nat) (h : ¬(a = r ∧ b = c)) : r ≠ a ∨ c ≠ b := by
  by_cases h1 : a = r
  · right
    intro h2
    exact h ⟨h1, h2.symm⟩
  · left
    exact fun h2 => h1 h2.symm

theorem sameBox_symm (n r c r' c' : Nat) (h : sameBox n r c r' c') :
    sameBox n r' c' r c := ⟨h.1.symm, h.2.symm⟩

theorem sameUnit_symm (n r c r' c' : Nat) (h : sameUnit n r c r' c') :
    sameUnit n r' c' r c := by
  rcases h with h | h | h
  · exact Or.inl h.symm
  · exact Or.inr (Or.inl h.symm)
  · exact Or.inr (Or.inr (sameBox_symm n r c r' c' h))

/-- The validator scans exactly the cells sharing a unit with `(r, c)`:
it accepts `num` iff no cell of the row, the column or the box holds `num`. -/
theorem isValidGeom_iff (n : Nat) (hg : GoodGeom n) (g : Grid) (r c num : Nat)
    (hr : r < n) (hc : c < n) :
    isValidGeom n g r c num = true ↔
      ∀ r' c', r' < n → c' < n → sameUnit n r c r' c' → cell g r' c' ≠ num := by
  obtain ⟨hbr, hbc, hdr, hdc, hmul⟩ := hg
  unfold isValidGeom
  simp only [Bool.and_eq_true, List.all_eq_true, List.mem_range, bne_iff_ne]
  constructor
  · rintro ⟨⟨hrow, hcol⟩, hbox⟩ r' c' hr' hc' hsame
    rcases hsame with rfl | rfl | ⟨hbr', hbc'⟩
    · exact hrow c' hc'
    · exact hcol r' hr'
    · have h1 : r / bRows n * bRows n + r' % bRows n = r' := by
        rw [hbr']
        exact div_mul_add_mod (bRows n) r' hbr
      have h2 : c / bCols n * bCols n + c' % bCols n = c' := by
        rw [hbc']
        exact div_mul_add_mod (bCols n) c' hbc
      have := hbox (r' % bRows n) (Nat.mod_lt r' hbr) (c' % bCols n) (Nat.mod_lt c' hbc)
      rw [h1, h2] at this
      exact this
  · intro h
    refine ⟨⟨fun x hx => ?_, fun x hx => ?_⟩, fun i hi j hj => ?_⟩
    · exact h r x hr hx (Or.inl rfl)
    · exact h x c hx hc (Or.inr (Or.inl rfl))
    · apply h _ _ (div_mul_add_lt (bRows n) n r i hbr hdr hr hi)
        (div_mul_add_lt (bCols n) n c j hbc hdc hc hj)
      refine Or.inr (Or.inr ⟨?_, ?_⟩)
      · exact (div_mul_add_div (bRows n) r i hbr hi).symm
      · exact (div_mul_add_div (bCols n) c j hbc hj).symm

/-- A validated placement in an empty cell preserves consistency. -/
theorem consistent_place (n : Nat) (hg : GoodGeom n) (g : Grid) (hw : wf n g)
    (r c num : Nat) (hr : r < n) (hc : c < n) (h0 : cell g r c = 0)
    (hv : isValidGeom n g r c num = true) (hcons : Consistent n g) :
    Consistent n (place g r c num) := by
  have hchar := (isValidGeom_iff n hg g r c num hr hc).mp hv
  intro a b a' b' ha hb ha' hb' hsame hne hnz hnz'
  by_cases hab : a = r ∧ b = c
  · obtain ⟨rfl, rfl⟩ := hab
    have hne' : ¬(a' = a ∧ b' = b) := by
      intro ⟨h1, h2⟩
      exact hne (by rw [h1, h2])
    have hcell' : cell (place g a b num) a' b' = cell g a' b' :=
      cell_place_ne g a' b' num a b (ne_pair_or a' b' a b hne')
    rw [cell_place_self n g hw a b num hr hc, hcell']
    rw [hcell'] at hnz'
    exact fun heq => hchar a' b' ha' hb' hsame heq.symm
  · have hcell : cell (place g r c num) a b = cell g a b :=
      cell_place_ne g a b num r c (ne_pair_or a b r c hab)
    by_cases hab' : a' = r ∧ b' = c
    · obtain ⟨rfl, rfl⟩ := hab'
      rw [hcell, cell_place_self n g hw a' b' num hr hc]
      rw [hcell] at hnz
      exact hchar a b ha hb (sameUnit_symm n a b a' b' hsame)
    · have hcell' : cell (place g r c num) a' b' = cell g a' b' :=
        cell_place_ne g a' b' num r c (ne_pair_or a' b' r c hab')
      rw [hcell, hcell']
      rw [hcell] at hnz
      rw [hcell'] at hnz'
      exact hcons a b a' b' ha hb ha' hb' hsame hne hnz hnz'

theorem valuesIn_place (n : Nat) (g : Grid) (r c num : Nat)
    (hnum : num ≤ n) (hvals : ValuesIn n g) : ValuesIn n (place g r c num) := by
  intro a b ha hb
  by_cases hab : a = r ∧ b = c
  · obtain ⟨rfl, rfl⟩ := hab
    by_cases hrl : a < g.length ∧ b < (g[a]?.getD []).length
    · unfold cell place
      rw [List.getElem?_set_self hrl.1, Option.getD_some,
        List.getElem?_set_self hrl.2, Option.getD_some]
      exact hnum
    · -- out of physical range: the write is dropped or lands outside the row
      by_cases h1 : a < g.length
      · unfold cell place
        rw [List.getElem?_set_self h1, Option.getD_some]
        have h2 : ¬b < (g[a]?.getD []).length := fun h => hrl ⟨h1, h⟩
        rw [List.set_eq_of_length_le (by omega)]
        have := hvals a b ha hb
        unfold cell at this
        exact this
      · unfold cell place
        rw [List.set_eq_of_length_le (by omega)]
        exact hvals a b ha hb
  · rw [cell_place_ne g a b num r c (ne_pair_or a b r c hab)]
    exact hvals a b ha hb

theorem count_ones_of_nodup (l : List Nat) (n : Nat) (hlen : l.length = n)
    (hnd : l.Nodup) (hmem : ∀ x ∈ l, 1 ≤ x ∧ x ≤ n) :
    ∀ v, 1 ≤ v → v ≤ n → l.count v = 1 := by
  have hsub : l.toFinset ⊆ Finset.Icc 1 n := by
    intro x hx
    rw [List.mem_toFinset] at hx
    exact Finset.mem_Icc.mpr (hmem x hx)
  have hcard : l.toFinset.card = n := by
    rw [List.toFinset_card_of_nodup hnd, hlen]
  have heq : l.toFinset = Finset.Icc 1 n := by
    apply Finset.eq_of_subset_of_card_le hsub
    rw [hcard, Nat.card_Icc]
    omega
  intro v h1 h2
  have hvmem : v ∈ l := by
    rw [← List.mem_toFinset, heq]
    exact Finset.mem_Icc.mpr ⟨h1, h2⟩
  exact List.count_eq_one_of_mem hnd hvmem

theorem unitOk_of (n : Nat) (l : List Nat) (hlen : l.length = n) (hnd : l.Nodup)
    (hmem : ∀ x ∈ l, 1 ≤ x ∧ x ≤ n) : unitOk n l = true := by
  unfold unitOk
  rw [List.all_eq_true]
  intro v hv
  rw [List.mem_range'_1] at hv
  simp only [beq_iff_eq]
  exact count_ones_of_nodup l n hlen hnd hmem v hv.1 (by omega)

/-- Conversely, a unit in which each of `1..n` occurs exactly once consists of
exactly the values `1..n`, without duplicates. -/
theorem unit_chars (n : Nat) (l : List Nat) (hlen : l.length = n)
    (h : unitOk n l = true) : l.Nodup ∧ ∀ x ∈ l, 1 ≤ x ∧ x ≤ n := by
  unfold unitOk at h
  rw [List.all_eq_true] at h
  have hcnt : ∀ v, 1 ≤ v → v ≤ n → l.count v = 1 := by
    intro v h1 h2
    have := h v (by rw [List.mem_range'_1]; omega)
    simpa using this
  have hle : (Finset.Icc 1 n).val ≤ (l : Multiset Nat) := by
    rw [Multiset.le_iff_count]
    intro v
    by_cases hv : v ∈ Finset.Icc 1 n
    · have h1 := Finset.mem_Icc.mp hv
      have : (Finset.Icc 1 n).val.count v ≤ 1 :=
        Multiset.nodup_iff_count_le_one.mp (Finset.Icc 1 n).nodup v
      have h2 : (l : Multiset Nat).count v = 1 := by
        rw [Multiset.coe_count]
        exact hcnt v h1.1 h1.2
      omega
    · have : (Finset.Icc 1 n).val.count v = 0 := by
        rw [Multiset.count_eq_zero]
        exact hv
      omega
  have hcard : Multiset.card (Finset.Icc 1 n).val = Multiset.card (l : Multiset Nat) := by
    show (Finset.Icc 1 n).card = _
    rw [Nat.card_Icc]
    simp [hlen]
  have heq : (Finset.Icc 1 n).val = (l : Multiset Nat) :=
    Multiset.eq_of_le_of_card_le hle (le_of_eq hcard.symm)
  constructor
  · have : (l : Multiset Nat).Nodup := heq ▸ (Finset.Icc 1 n).nodup
    exact Multiset.coe_nodup.mp this
  · intro x hx
    have : x ∈ (Finset.Icc 1 n).val := by
      rw [heq]
      exact hx
    exact Finset.mem_Icc.mp this

theorem two_le_countP {α : Type} (p : α → Bool) :
    ∀ (l : List α), l.Nodup → ∀ a b, a ∈ l → b ∈ l → a ≠ b →
      p a = true → p b = true → 2 ≤ l.countP p := by
  intro l
  induction l with
  | nil => intro _ a _ ha; exact absurd ha (List.not_mem_nil a)
  | cons x l ih =>
    intro hnd a b ha hb hab hpa hpb
    rw [List.countP_cons]
    rcases List.mem_cons.mp ha with rfl | ha'
    · have hb' : b ∈ l := by
        rcases List.mem_cons.mp hb with rfl | h
        · exact absurd rfl hab
        · exact h
      have h1 : 1 ≤ l.countP p := by
        rw [Nat.succ_le, List.countP_pos_iff]
        exact ⟨b, hb', hpb⟩
      rw [hpa]
      simp only [if_true]
      omega
    · rcases List.mem_cons.mp hb with rfl | hb'
      · have h1 : 1 ≤ l.countP p := by
          rw [Nat.succ_le, List.countP_pos_iff]
          exact ⟨a, ha', hpa⟩
        rw [hpb]
        simp only [if_true]
        omega
      · have := ih (List.nodup_cons.mp hnd).2 a b ha' hb' hab hpa hpb
        omega

/-- If the value list of a nodup position list is nodup, the grid values at two
distinct listed positions differ. -/
theorem vals_ne_of_nodup (g : Grid) (ps : List (Nat × Nat)) (hnd : ps.Nodup)
    (hvnd : (valsAt g ps).Nodup) (p q : Nat × Nat) (hp : p ∈ ps) (hq : q ∈ ps)
    (hpq : p ≠ q) : cell g p.1 p.2 ≠ cell g q.1 q.2 := by
  intro heq
  have h2 : 2 ≤ ps.countP fun x => cell g x.1 x.2 == cell g p.1 p.2 := by
    apply two_le_countP _ ps hnd p q hp hq hpq (by simp) (by simp [heq])
  have h1 : (valsAt g ps).count (cell g p.1 p.2) ≤ 1 :=
    List.nodup_iff_count_le_one.mp hvnd _
  rw [valsAt, List.count_eq_countP, List.countP_map] at h1
  have : (ps.countP fun x => cell g x.1 x.2 == cell g p.1 p.2)
      = ps.countP ((fun a => a == cell g p.1 p.2) ∘ fun p => cell g p.1 p.2) := rfl
  omega

theorem rowCells_nodup (n r : Nat) : (rowCells n r).Nodup := by
  apply List.Nodup.map_on _ (List.nodup_range n)
  intro x _ y _ h
  exact (Prod.mk.injEq _ _ _ _).mp h |>.2

theorem colCells_nodup (n c : Nat) : (colCells n c).Nodup := by
  apply List.Nodup.map_on _ (List.nodup_range n)
  intro x _ y _ h
  exact (Prod.mk.injEq _ _ _ _).mp h |>.1

theorem boxCells_nodup (n br bc : Nat) (hg : GoodGeom n) : (boxCells n br bc).Nodup := by
  obtain ⟨hbr, hbc, _, _, _⟩ := hg
  apply List.Nodup.map_on _ (List.nodup_range _)
  intro x _ y _ h
  obtain ⟨h1, h2⟩ := (Prod.mk.injEq _ _ _ _).mp h
  have hx : x / bCols n = y / bCols n := by omega
  have hy : x % bCols n = y % bCols n := by omega
  have hdx := Nat.div_add_mod x (bCols n)
  have hdy := Nat.div_add_mod y (bCols n)
  have hmm : bCols n * (x / bCols n) = bCols n * (y / bCols n) := by rw [hx]
  omega

theorem mem_rowCells (n r : Nat) (p : Nat × Nat) :
    p ∈ rowCells n r ↔ p.1 = r ∧ p.2 < n := by
  unfold rowCells
  rcases p with ⟨a, b⟩
  simp only [List.mem_map, List.mem_range, Prod.mk.injEq]
  constructor
  · rintro ⟨c, hc, rfl, rfl⟩
    exact ⟨rfl, hc⟩
  · rintro ⟨rfl, hb⟩
    exact ⟨b, hb, rfl, rfl⟩

theorem mem_colCells (n c : Nat) (p : Nat × Nat) :
    p ∈ colCells n c ↔ p.1 < n ∧ p.2 = c := by
  unfold colCells
  rcases p with ⟨a, b⟩
  simp only [List.mem_map, List.mem_range, Prod.mk.injEq]
  constructor
  · rintro ⟨r, hr, rfl, rfl⟩
    exact ⟨hr, rfl⟩
  · rintro ⟨ha, rfl⟩
    exact ⟨a, ha, rfl, rfl⟩

/-- Any in-quotient position belongs to its box's cell list. -/
theorem mem_boxCells_self (n : Nat) (hg : GoodGeom n) (a b : Nat) :
    (a, b) ∈ boxCells n (a / bRows n) (b / bCols n) := by
  obtain ⟨hbr, hbc, _, _, _⟩ := hg
  unfold boxCells
  rw [List.mem_map]
  refine ⟨a % bRows n * bCols n + b % bCols n, ?_, ?_⟩
  · rw [List.mem_range]
    have h1 : a % bRows n < bRows n := Nat.mod_lt a hbr
    have h2 : b % bCols n < bCols n := Nat.mod_lt b hbc
    calc a % bRows n * bCols n + b % bCols n
        < a % bRows n * bCols n + bCols n := by omega
    _ = (a % bRows n + 1) * bCols n := by ring
    _ ≤ bRows n * bCols n := Nat.mul_le_mul_right _ (by omega)
  · have h2 : b % bCols n < bCols n := Nat.mod_lt b hbc
    have hdiv : (a % bRows n * bCols n + b % bCols n) / bCols n = a % bRows n := by
      rw [Nat.mul_comm (a % bRows n) (bCols n), Nat.mul_add_div hbc,
        Nat.div_eq_of_lt h2, Nat.add_zero]
    have hmod : (a % bRows n * bCols n + b % bCols n) % bCols n = b % bCols n := by
      rw [Nat.mul_comm (a % bRows n) (bCols n), Nat.mul_add_mod, Nat.mod_eq_of_lt h2]
    rw [hdiv, hmod, div_mul_add_mod (bRows n) a hbr, div_mul_add_mod (bCols n) b hbc]

theorem mem_boxCells_bounds (n br bc : Nat) (hg : GoodGeom n)
    (hbr' : br < n / bRows n) (hbc' : bc < n / bCols n) (p : Nat × Nat)
    (hp : p ∈ boxCells n br bc) :
    p.1 < n ∧ p.2 < n ∧ p.1 / bRows n = br ∧ p.2 / bCols n = bc := by
  obtain ⟨hbr, hbc, hdr, hdc, hmul⟩ := hg
  unfold boxCells at hp
  rw [List.mem_map] at hp
  obtain ⟨k, hk, rfl⟩ := hp
  rw [List.mem_range] at hk
  have hkd : k / bCols n < bRows n := by
    rw [Nat.div_lt_iff_lt_mul hbc]
    calc k < bRows n * bCols n := hk
    _ = bRows n * bCols n := rfl
  have hkm : k % bCols n < bCols n := Nat.mod_lt k hbc
  have hrow : br * bRows n + k / bCols n < n := by
    have hq : br + 1 ≤ n / bRows n := hbr'
    calc br * bRows n + k / bCols n < br * bRows n + bRows n := by omega
    _ = (br + 1) * bRows n := by ring
    _ ≤ n / bRows n * bRows n := Nat.mul_le_mul_right _ hq
    _ = n := Nat.div_mul_cancel hdr
  have hcol : bc * bCols n + k % bCols n < n := by
    have hq : bc + 1 ≤ n / bCols n := hbc'
    calc bc * bCols n + k % bCols n < bc * bCols n + bCols n := by omega
    _ = (bc + 1) * bCols n := by ring
    _ ≤ n / bCols n * bCols n := Nat.mul_le_mul_right _ hq
    _ = n := Nat.div_mul_cancel hdc
  refine ⟨hrow, hcol, ?_, ?_⟩
  · show (br * bRows n + k / bCols n) / bRows n = br
    rw [Nat.mul_comm br (bRows n), Nat.mul_add_div hbr, Nat.div_eq_of_lt hkd,
      Nat.add_zero]
  · show (bc * bCols n + k % bCols n) / bCols n = bc
    rw [Nat.mul_comm bc (bCols n), Nat.mul_add_div hbc, Nat.div_eq_of_lt hkm,
      Nat.add_zero]

theorem boxCells_length (n br bc : Nat) : (boxCells n br bc).length = bRows n * bCols n := by
  simp [boxCells]

/-- A complete, consistent grid with in-range values satisfies the spec's
validity invariant. -/
theorem validGrid_of (n : Nat) (hg : GoodGeom n) (g : Grid)
    (hcomp : Complete n g) (hcons : Consistent n g) (hvals : ValuesIn n g) :
    validGrid n g = true := by
  have hunit : ∀ ps : List (Nat × Nat), ps.Nodup → ps.length = n →
      (∀ p ∈ ps, p.1 < n ∧ p.2 < n) →
      (∀ p ∈ ps, ∀ q ∈ ps, sameUnit n p.1 p.2 q.1 q.2) →
      unitOk n (valsAt g ps) = true := by
    intro ps hnd hlen hin hsame
    apply unitOk_of
    · simp [valsAt, hlen]
    · apply List.Nodup.map_on _ hnd
      intro p hp q hq hfeq
      by_contra hpq
      exact hcons p.1 p.2 q.1 q.2 (hin p hp).1 (hin p hp).2 (hin q hq).1 (hin q hq).2
        (hsame p hp q hq)
        (fun hc => hpq (by rcases p with ⟨p1, p2⟩; rcases q with ⟨q1, q2⟩; simpa using hc))
        (hcomp p.1 p.2 (hin p hp).1 (hin p hp).2)
        (hcomp q.1 q.2 (hin q hq).1 (hin q hq).2) hfeq
    · intro x hx
      rw [valsAt, List.mem_map] at hx
      obtain ⟨p, hp, rfl⟩ := hx
      refine ⟨?_, hvals p.1 p.2 (hin p hp).1 (hin p hp).2⟩
      have := hcomp p.1 p.2 (hin p hp).1 (hin p hp).2
      omega
  unfold validGrid
  simp only [Bool.and_eq_true, List.all_eq_true, List.mem_range]
  obtain ⟨hbr, hbc, hdr, hdc, hmul⟩ := hg
  refine ⟨⟨?_, ?_⟩, ?_⟩
  · intro r hr
    apply hunit _ (rowCells_nodup n r) (by simp [rowCells])
    · intro p hp
      obtain ⟨h1, h2⟩ := (mem_rowCells n r p).mp hp
      exact ⟨h1 ▸ hr, h2⟩
    · intro p hp q hq
      obtain ⟨h1, _⟩ := (mem_rowCells n r p).mp hp
      obtain ⟨h1', _⟩ := (mem_rowCells n r q).mp hq
      exact Or.inl (h1.trans h1'.symm)
  · intro c hc
    apply hunit _ (colCells_nodup n c) (by simp [colCells])
    · intro p hp
      obtain ⟨h1, h2⟩ := (mem_colCells n c p).mp hp
      exact ⟨h1, h2 ▸ hc⟩
    · intro p hp q hq
      obtain ⟨_, h2⟩ := (mem_colCells n c p).mp hp
      obtain ⟨_, h2'⟩ := (mem_colCells n c q).mp hq
      exact Or.inr (Or.inl (h2.trans h2'.symm))
  · intro br hbr' bc hbc'
    apply hunit _ (boxCells_nodup n br bc ⟨hbr, hbc, hdr, hdc, hmul⟩)
      (by rw [boxCells_length, hmul])
    · intro p hp
      obtain ⟨h1, h2, _, _⟩ := mem_boxCells_bounds n br bc
        ⟨hbr, hbc, hdr, hdc, hmul⟩ hbr' hbc' p hp
      exact ⟨h1, h2⟩
    · intro p hp q hq
      obtain ⟨_, _, h3, h4⟩ := mem_boxCells_bounds n br bc
        ⟨hbr, hbc, hdr, hdc, hmul⟩ hbr' hbc' p hp
      obtain ⟨_, _, h3', h4'⟩ := mem_boxCells_bounds n br bc
        ⟨hbr, hbc, hdr, hdc, hmul⟩ hbr' hbc' q hq
      exact Or.inr (Or.inr ⟨h3.trans h3'.symm, h4.trans h4'.symm⟩)

/-- Conversely, a grid satisfying the validity invariant is complete,
in-range and consistent. -/
theorem validGrid_chars (n : Nat) (hg : GoodGeom n) (g : Grid)
    (hv : validGrid n g = true) : Complete n g ∧ ValuesIn n g ∧ Consistent n g := by
  obtain ⟨hbr, hbc, hdr, hdc, hmul⟩ := hg
  unfold validGrid at hv
  simp only [Bool.and_eq_true, List.all_eq_true, List.mem_range] at hv
  obtain ⟨⟨hrows, hcols⟩, hboxes⟩ := hv
  have hrowch : ∀ r, r < n → (valsAt g (rowCells n r)).Nodup ∧
      ∀ x ∈ valsAt g (rowCells n r), 1 ≤ x ∧ x ≤ n := by
    intro r hr
    exact unit_chars n _ (by simp [valsAt, rowCells]) (hrows r hr)
  have hcolch : ∀ c, c < n → (valsAt g (colCells n c)).Nodup ∧
      ∀ x ∈ valsAt g (colCells n c), 1 ≤ x ∧ x ≤ n := by
    intro c hc
    exact unit_chars n _ (by simp [valsAt, colCells]) (hcols c hc)
  have hcellmem : ∀ r c, r < n → c < n → cell g r c ∈ valsAt g (rowCells n r) := by
    intro r c hr hc
    rw [valsAt, List.mem_map]
    exact ⟨(r, c), (mem_rowCells n r (r, c)).mpr ⟨rfl, hc⟩, rfl⟩
  have hcompvals : ∀ r c, r < n → c < n → 1 ≤ cell g r c ∧ cell g r c ≤ n := by
    intro r c hr hc
    exact (hrowch r hr).2 _ (hcellmem r c hr hc)
  refine ⟨?_, ?_, ?_⟩
  · intro r c hr hc
    have := (hcompvals r c hr hc).1
    omega
  · intro r c hr hc
    exact (hcompvals r c hr hc).2
  · intro a b a' b' ha hb ha' hb' hsame hne _ _
    have hgg : GoodGeom n := ⟨hbr, hbc, hdr, hdc, hmul⟩
    rcases hsame with rfl | rfl | ⟨h1, h2⟩
    · -- same row
      apply vals_ne_of_nodup g (rowCells n a) (rowCells_nodup n a)
        (hrowch a ha).1 (a, b) (a, b') ((mem_rowCells _ _ _).mpr ⟨rfl, hb⟩)
        ((mem_rowCells _ _ _).mpr ⟨rfl, hb'⟩) hne
    · -- same column
      apply vals_ne_of_nodup g (colCells n b) (colCells_nodup n b)
        (hcolch b hb).1 (a, b) (a', b) ((mem_colCells _ _ _).mpr ⟨ha, rfl⟩)
        ((mem_colCells _ _ _).mpr ⟨ha', rfl⟩) hne
    · -- same box
      have hq1 : a / bRows n < n / bRows n := Nat.div_lt_div_of_lt_of_dvd hdr ha
      have hq2 : b / bCols n < n / bCols n := Nat.div_lt_div_of_lt_of_dvd hdc hb
      have hbox := hboxes (a / bRows n) hq1 (b / bCols n) hq2
      have hch := unit_chars n _ (by rw [valsAt, List.length_map, boxCells_length, hmul]) hbox
      apply vals_ne_of_nodup g (boxCells n (a / bRows n) (b / bCols n))
        (boxCells_nodup n _ _ hgg) hch.1 (a, b) (a', b')
        (mem_boxCells_self n hgg a b) ?_ hne
      have := mem_boxCells_self n hgg a' b'
      rw [← h1, ← h2] at this
      exact this

/-- Soundness of the candidate loop, given soundness and restoration of the
recursive call. -/
theorem solveGo_sound (n : Nat) (hn : Supported n) (r c : Nat)
    (hr : r < n) (hc : c < n) (s1 : Grid → Bool × Grid)
    (Hsound : ∀ h g', wf n h → Consistent n h → ValuesIn n h → s1 h = (true, g') →
      wf n g' ∧ Complete n g' ∧ Consistent n g' ∧ ValuesIn n g' ∧
        (∀ a b, a < n → b < n → cell h a b ≠ 0 → cell g' a b = cell h a b))
    (Hres : ∀ h h', wf n h → s1 h = (false, h') → h' = h) :
    ∀ (nums : List Nat) (g g' : Grid), wf n g → Consistent n g → ValuesIn n g →
      (∀ v ∈ nums, 1 ≤ v ∧ v ≤ n) → cell g r c = 0 →
      solveGo s1 r c nums g = (true, g') →
      wf n g' ∧ Complete n g' ∧ Consistent n g' ∧ ValuesIn n g' ∧
        (∀ a b, a < n → b < n → cell g a b ≠ 0 → cell g' a b = cell g a b) := by
  intro nums
  induction nums with
  | nil =>
    intro g g' _ _ _ _ _ h
    rw [solveGo] at h
    exact absurd h (by simp)
  | cons num rest ih =>
    intro g g' hw hcons hvals hnums h0 h
    rw [solveGo] at h
    by_cases hnv : isValidForGrid g r c num = true
    · rw [if_pos hnv] at h
      rcases hres : s1 (place g r c num) with ⟨b, h1⟩
      rw [hres] at h
      have hgeom : isValidGeom n g r c num = true := by
        rw [← isValidForGrid_eq_geom n hn g hw.1]
        exact hnv
      have hwp : wf n (place g r c num) := wf_place n g r c num hw
      have hcp : Consistent n (place g r c num) :=
        consistent_place n (goodGeom_of_supported n hn) g hw r c num hr hc h0 hgeom hcons
      have hvp : ValuesIn n (place g r c num) :=
        valuesIn_place n g r c num (hnums num (List.mem_cons_self _ _)).2 hvals
      cases b
      · have h2 : solveGo s1 r c rest (setZero h1 r c) = (true, g') := h
        have h1g : h1 = place g r c num := Hres _ _ hwp hres
        rw [h1g, setZero_place n g hw r c num hr hc h0] at h2
        exact ih g g' hw hcons hvals
          (fun v hv => hnums v (List.mem_cons_of_mem _ hv)) h0 h2
      · have h2 : ((true, h1) : Bool × Grid) = (true, g') := h
        have h1g : h1 = g' := by injection h2
        subst h1g
        obtain ⟨hw', hcomp', hcons', hvals', hext'⟩ := Hsound _ _ hwp hcp hvp hres
        refine ⟨hw', hcomp', hcons', hvals', ?_⟩
        intro a b ha hb hnz
        have hne : r ≠ a ∨ c ≠ b := by
          by_cases h1 : a = r
          · right
            intro h2'
            rw [h1, h2'.symm] at hnz
            exact hnz h0
          · left
            exact fun h2' => h1 h2'.symm
        have hcellp : cell (place g r c num) a b = cell g a b :=
          cell_place_ne g a b num r c hne
        rw [← hcellp]
        exact hext' a b ha hb (by rw [hcellp]; exact hnz)
    · rw [if_neg hnv] at h
      exact ih g g' hw hcons hvals
        (fun v hv => hnums v (List.mem_cons_of_mem _ hv)) h0 h

/-- Soundness of the solver: a successful solve yields a complete, consistent,
in-range grid extending the input. -/
theorem solveFuel_sound (n : Nat) (hn : Supported n) :
    ∀ (fuel : Nat) (g g' : Grid), wf n g → Consistent n g → ValuesIn n g →
      solveFuel fuel g = (true, g') →
      wf n g' ∧ Complete n g' ∧ Consistent n g' ∧ ValuesIn n g' ∧
        (∀ a b, a < n → b < n → cell g a b ≠ 0 → cell g' a b = cell g a b) := by
  intro fuel
  induction fuel with
  | zero =>
    intro g g' _ _ _ h
    rw [solveFuel] at h
    exact absurd h (by simp)
  | succ f ih =>
    intro g g' hw hcons hvals h
    rw [solveFuel] at h
    rcases hfe : findEmpty g with _ | ⟨r, c⟩
    · rw [hfe] at h
      have h2 : ((true, g) : Bool × Grid) = (true, g') := h
      have hgg : g = g' := by injection h2
      subst hgg
      refine ⟨hw, ?_, hcons, hvals, fun a b _ _ _ => rfl⟩
      intro a b ha hb
      exact (findEmpty_none g).mp hfe a b (hw.1 ▸ ha) (hw.1 ▸ hb)
    · rw [hfe] at h
      have h2 : solveGo (solveFuel f) r c (List.range' 1 g.length) g = (true, g') := h
      obtain ⟨hr, hc, h0⟩ := findEmpty_some g r c hfe
      have hrn : r < n := hw.1 ▸ hr
      have hcn : c < n := hw.1 ▸ hc
      exact solveGo_sound n hn r c hrn hcn (solveFuel f)
        (fun h g' hwh hch hvh => ih h g' hwh hch hvh)
        (fun h h' hwh => solveFuel_restore n f h h' hwh)
        _ g g' hw hcons hvals
        (fun v hv => by
          rw [List.mem_range'_1] at hv
          exact ⟨hv.1, by rw [← hw.1]; omega⟩) h0 h2

/-- Completeness of the candidate loop: if some listed candidate is valid and
its recursive solve succeeds, the loop succeeds. -/
theorem solveGo_complete (n r c : Nat) (f : Nat) (g : Grid) (hw : wf n g)
    (hr : r < n) (hc : c < n) (h0 : cell g r c = 0) :
    ∀ (nums : List Nat) (v : Nat), v ∈ nums → isValidForGrid g r c v = true →
      (solveFuel f (place g r c v)).1 = true →
      (solveGo (solveFuel f) r c nums g).1 = true := by
  intro nums
  induction nums with
  | nil => intro v hv; exact absurd hv (List.not_mem_nil v)
  | cons num rest ih =>
    intro v hv hvalid hsucc
    rw [solveGo]
    by_cases hnv : isValidForGrid g r c num = true
    · rw [if_pos hnv]
      rcases hres : solveFuel f (place g r c num) with ⟨b, h1⟩
      cases b
      · show (solveGo (solveFuel f) r c rest (setZero h1 r c)).1 = true
        have h1g : h1 = place g r c num :=
          solveFuel_restore n f _ _ (wf_place n g r c num hw) hres
        rw [h1g, setZero_place n g hw r c num hr hc h0]
        have hvrest : v ∈ rest := by
          rcases List.mem_cons.mp hv with rfl | h
          · exfalso
            rw [hres] at hsucc
            simp at hsucc
          · exact h
        exact ih v hvrest hvalid hsucc
      · rfl
    · rw [if_neg hnv]
      have hvrest : v ∈ rest := by
        rcases List.mem_cons.mp hv with rfl | h
        · exact absurd hvalid hnv
        · exact h
      exact ih v hvrest hvalid hsucc

/-- Completeness of the solver: any grid extending to a complete consistent
solution is solved (with sufficient fuel). -/
theorem solveFuel_complete (n : Nat) (hn : Supported n) (s : Grid)
    (hcomp : Complete n s) (hcons : Consistent n s) (hvals : ValuesIn n s) :
    ∀ (fuel : Nat) (g : Grid), wf n g → ExtendsTo n g s → countZeros g < fuel →
      (solveFuel fuel g).1 = true := by
  intro fuel
  induction fuel with
  | zero => intro g _ _ h; omega
  | succ f ih =>
    intro g hw hext hcz
    rw [solveFuel]
    rcases hfe : findEmpty g with _ | ⟨r, c⟩
    · rfl
    · obtain ⟨hr, hc, h0⟩ := findEmpty_some g r c hfe
      have hrn : r < n := hw.1 ▸ hr
      have hcn : c < n := hw.1 ▸ hc
      have hpos := countZeros_pos_of_findEmpty g r c hfe
      set v := cell s r c with hv
      have hv1 : 1 ≤ v := by
        have := hcomp r c hrn hcn
        omega
      have hvn : v ≤ n := hvals r c hrn hcn
      have hvalid : isValidForGrid g r c v = true := by
        rw [isValidForGrid_eq_geom n hn g hw.1]
        rw [isValidGeom_iff n (goodGeom_of_supported n hn) g r c v hrn hcn]
        intro r' c' hr' hc' hsame heq
        by_cases hrc : r' = r ∧ c' = c
        · rw [hrc.1, hrc.2] at heq
          rw [heq] at h0
          omega
        · have hnz' : cell g r' c' ≠ 0 := by rw [heq]; omega
          have hs' : cell s r' c' = v := by rw [← hext r' c' hr' hc' hnz', heq]
          have hnes : cell s r' c' ≠ 0 := by rw [hs']; omega
          have hnesrc : cell s r c ≠ 0 := hcomp r c hrn hcn
          refine hcons r' c' r c hr' hc' hrn hcn
            (sameUnit_symm n r c r' c' hsame) ?_ hnes hnesrc ?_
          · intro hpair
            apply hrc
            exact ⟨congrArg Prod.fst hpair, congrArg Prod.snd hpair⟩
          · rw [hs', hv]
      have hvmem : v ∈ List.range' 1 g.length := by
        rw [List.mem_range'_1, hw.1]
        omega
      apply solveGo_complete n r c f g hw hrn hcn h0 _ v hvmem hvalid
      have hwp := wf_place n g r c v hw
      have hextp : ExtendsTo n (place g r c v) s := by
        intro a b ha hb hnz
        by_cases hab : a = r ∧ b = c
        · rw [hab.1, hab.2, cell_place_self n g hw r c v hrn hcn]
        · rw [cell_place_ne g a b v r c (ne_pair_or a b r c hab)]
          rw [cell_place_ne g a b v r c (ne_pair_or a b r c hab)] at hnz
          exact hext a b ha hb hnz
      have hczp := countZeros_place n g hw r c v hrn hcn h0 (by omega)
      exact ih (place g r c v) hwp hextp (by omega)

theorem suppPair_supported (n bs : Nat) (h : SuppPair n bs) : Supported n := by
  rcases h with ⟨rfl, _⟩ | ⟨rfl, _⟩ | ⟨rfl, _⟩
  · exact Or.inl rfl
  · exact Or.inr (Or.inl rfl)
  · exact Or.inr (Or.inr rfl)

/-- Restoration for the candidate loop of the filler. -/
theorem tryNums_restore (size bs row col : Nat)
    (cont : Grid → Nat → Nat → Bool × Grid × Nat × Nat)
    (Hres : ∀ h t s g' t' s', wf size h → cont h t s = (false, g', t', s') → g' = h) :
    ∀ (nums : List Nat) (g : Grid) (t s : Nat) (g' : Grid) (t' s' : Nat),
      wf size g → row < size → col < size → cell g row col = 0 →
      tryNums size bs row col cont nums g t s = (false, g', t', s') → g' = g := by
  intro nums
  induction nums with
  | nil =>
    intro g t s g' t' s' _ _ _ _ h
    rw [tryNums] at h
    injection h with _ h2
    injection h2 with h2 _
    exact h2.symm
  | cons num rest ih =>
    intro g t s g' t' s' hw hr hc h0 h
    rw [tryNums] at h
    by_cases hv : isValid size bs g row col num = true
    · rw [if_pos hv] at h
      rcases hres : cont (place g row col num) t s with ⟨b, h1, t1, s1⟩
      rw [hres] at h
      cases b
      · have h2 : tryNums size bs row col cont rest (setZero h1 row col) t1 s1
            = (false, g', t', s') := h
        have h1g : h1 = place g row col num := Hres _ _ _ _ _ _ (wf_place size g row col num hw) hres
        rw [h1g, setZero_place size g hw row col num hr hc h0] at h2
        exact ih g t1 s1 g' t' s' hw hr hc h0 h2
      · have h2 : ((true, h1, t1, s1) : Bool × Grid × Nat × Nat) = (false, g', t', s') := h
        exact absurd h2 (by simp)
    · rw [if_neg hv] at h
      exact ih g t s g' t' s' hw hr hc h0 h

/-- Restoration for the filler: a failed attempt leaves the grid exactly as it
was (its placements are all undone). -/
theorem fillRec_restore (size bs : Nat) (clock rand : Nat → Nat) (st tmo : Nat) :
    ∀ (fuel row col : Nat) (g : Grid) (t s : Nat) (g' : Grid) (t' s' : Nat),
      wf size g →
      fillRec size bs clock rand st tmo fuel row col g t s = (false, g', t', s') →
      g' = g := by
  intro fuel
  induction fuel with
  | zero =>
    intro row col g t s g' t' s' _ h
    rw [fillRec] at h
    injection h with _ h2
    injection h2 with h2 _
    exact h2.symm
  | succ f ih =>
    intro row col g t s g' t' s' hw h
    rw [fillRec] at h
    by_cases htime : clock t - st > tmo
    · rw [if_pos htime] at h
      injection h with _ h2
      injection h2 with h2 _
      exact h2.symm
    · rw [if_neg htime] at h
      by_cases hrow : size ≤ row
      · rw [if_pos hrow] at h
        exact absurd h (by simp)
      · rw [if_neg hrow] at h
        by_cases hcol : size ≤ col
        · rw [if_pos hcol] at h
          exact ih _ _ g _ _ g' t' s' hw h
        · rw [if_neg hcol] at h
          by_cases hcell : cell g row col ≠ 0
          · rw [if_pos hcell] at h
            exact ih _ _ g _ _ g' t' s' hw h
          · rw [if_neg hcell] at h
            push_neg at hcell
            exact tryNums_restore size bs row col _
              (fun h1 t1 s1 g1 t1' s1' hw1 hres => ih _ _ h1 t1 s1 g1 t1' s1' hw1 hres)
              _ g _ _ g' t' s' hw (by omega) (by omega) hcell h

/-- Soundness of the filler's candidate loop. -/
theorem tryNums_sound (size bs row col : Nat) (hp : SuppPair size bs)
    (hr : row < size) (hc : col < size)
    (cont : Grid → Nat → Nat → Bool × Grid × Nat × Nat)
    (Hsound : ∀ h t s g' t' s', wf size h → Consistent size h → ValuesIn size h →
      cont h t s = (true, g', t', s') → FillPost size row (col + 1) h g')
    (Hres : ∀ h t s g' t' s', wf size h → cont h t s = (false, g', t', s') → g' = h) :
    ∀ (nums : List Nat) (g : Grid) (t s : Nat) (g' : Grid) (t' s' : Nat),
      wf size g → Consistent size g → ValuesIn size g →
      (∀ v ∈ nums, 1 ≤ v ∧ v ≤ size) → cell g row col = 0 →
      tryNums size bs row col cont nums g t s = (true, g', t', s') →
      FillPost size row col g g' := by
  intro nums
  induction nums with
  | nil =>
    intro g t s g' t' s' _ _ _ _ _ h
    rw [tryNums] at h
    exact absurd h (by simp)
  | cons num rest ih =>
    intro g t s g' t' s' hw hcons hvals hnums h0 h
    rw [tryNums] at h
    by_cases hv : isValid size bs g row col num = true
    · rw [if_pos hv] at h
      rcases hres : cont (place g row col num) t s with ⟨b, h1, t1, s1⟩
      rw [hres] at h
      have hgeom : isValidGeom size g row col num = true := by
        rw [← isValid_eq_geom size bs hp]
        exact hv
      have hwp : wf size (place g row col num) := wf_place size g row col num hw
      have hnum1 := hnums num (List.mem_cons_self _ _)
      have hcp : Consistent size (place g row col num) :=
        consistent_place size (goodGeom_of_supported size (suppPair_supported size bs hp))
          g hw row col num hr hc h0 hgeom hcons
      have hvp : ValuesIn size (place g row col num) :=
        valuesIn_place size g row col num hnum1.2 hvals
      cases b
      · have h2 : tryNums size bs row col cont rest (setZero h1 row col) t1 s1
            = (true, g', t', s') := h
        have h1g : h1 = place g row col num := Hres _ _ _ _ _ _ hwp hres
        rw [h1g, setZero_place size g hw row col num hr hc h0] at h2
        exact ih g t1 s1 g' t' s' hw hcons hvals
          (fun v hv' => hnums v (List.mem_cons_of_mem _ hv')) h0 h2
      · have h2 : ((true, h1, t1, s1) : Bool × Grid × Nat × Nat) = (true, g', t', s') := h
        obtain ⟨hg', _, _⟩ : h1 = g' ∧ t1 = t' ∧ s1 = s' := by simpa using h2
        rw [← hg']
        obtain ⟨hw', hcons', hvals', hfill', hkeep'⟩ := Hsound _ _ _ _ _ _ hwp hcp hvp hres
        refine ⟨hw', hcons', hvals', ?_, ?_⟩
        · intro a b ha hb hafter
          by_cases hab : a = row ∧ b = col
          · rw [hab.1, hab.2]
            have hkc : cell h1 row col = cell (place g row col num) row col :=
              hkeep' row col hr hc (by omega)
            rw [hkc, cell_place_self size g hw row col num hr hc]
            omega
          · apply hfill' a b ha hb
            rcases hafter with h' | ⟨rfl, h'⟩
            · exact Or.inl h'
            · right
              refine ⟨rfl, ?_⟩
              have : b ≠ col := fun hbc => hab ⟨rfl, hbc⟩
              omega
        · intro a b ha hb hbefore
          have hnotab : ¬(a = row ∧ b = col) := by
            intro ⟨rfl, rfl⟩
            exact hbefore (Or.inr ⟨rfl, Nat.le_refl _⟩)
          have h1' : cell h1 a b = cell (place g row col num) a b := by
            apply hkeep' a b ha hb
            intro hafter
            apply hbefore
            rcases hafter with h' | ⟨rfl, h'⟩
            · exact Or.inl h'
            · exact Or.inr ⟨rfl, by omega⟩
          rw [h1', cell_place_ne g a b num row col (ne_pair_or a b row col hnotab)]
    · rw [if_neg hv] at h
      exact ih g t s g' t' s' hw hcons hvals
        (fun v hv' => hnums v (List.mem_cons_of_mem _ hv')) h0 h

/-- Soundness of `fillRec`: a successful fill attempt from cursor `(row, col)`
fills everything from the cursor on and preserves the invariants. -/
theorem fillRec_sound (size bs : Nat) (hp : SuppPair size bs)
    (clock rand : Nat → Nat) (st tmo : Nat) :
    ∀ (fuel row col : Nat) (g : Grid) (t s : Nat) (g' : Grid) (t' s' : Nat),
      wf size g → Consistent size g → ValuesIn size g →
      fillRec size bs clock rand st tmo fuel row col g t s = (true, g', t', s') →
      FillPost size row col g g' := by
  intro fuel
  induction fuel with
  | zero =>
    intro row col g t s g' t' s' _ _ _ h
    rw [fillRec] at h
    exact absurd h (by simp)
  | succ f ih =>
    intro row col g t s g' t' s' hw hcons hvals h
    rw [fillRec] at h
    by_cases htime : clock t - st > tmo
    · rw [if_pos htime] at h
      exact absurd h (by simp)
    · rw [if_neg htime] at h
      by_cases hrow : size ≤ row
      · rw [if_pos hrow] at h
        have h2 : ((true, g, t + 1, s) : Bool × Grid × Nat × Nat) = (true, g', t', s') := h
        obtain ⟨hgg, _, _⟩ : g = g' ∧ t + 1 = t' ∧ s = s' := by simpa using h2
        rw [← hgg]
        refine ⟨hw, hcons, hvals, ?_, fun a b _ _ _ => rfl⟩
        intro a b ha hb hafter
        rcases hafter with h' | ⟨rfl, h'⟩ <;> omega
      · rw [if_neg hrow] at h
        by_cases hcol : size ≤ col
        · rw [if_pos hcol] at h
          obtain ⟨hw', hcons', hvals', hfill', hkeep'⟩ := ih _ _ g _ _ g' t' s' hw hcons hvals h
          refine ⟨hw', hcons', hvals', ?_, ?_⟩
          · intro a b ha hb hafter
            apply hfill' a b ha hb
            rcases hafter with h' | ⟨rfl, h'⟩
            · omega
            · omega
          · intro a b ha hb hbefore
            apply hkeep' a b ha hb
            omega
        · rw [if_neg hcol] at h
          by_cases hcell : cell g row col ≠ 0
          · rw [if_pos hcell] at h
            obtain ⟨hw', hcons', hvals', hfill', hkeep'⟩ :=
              ih _ _ g _ _ g' t' s' hw hcons hvals h
            refine ⟨hw', hcons', hvals', ?_, ?_⟩
            · intro a b ha hb hafter
              by_cases hab : a = row ∧ b = col
              · rw [hab.1, hab.2]
                have : cell g' row col = cell g row col :=
                  hkeep' row col (by omega) (by omega) (by omega)
                rw [this]
                exact hcell
              · apply hfill' a b ha hb
                rcases hafter with h' | ⟨rfl, h'⟩
                · exact Or.inl h'
                · right
                  refine ⟨rfl, ?_⟩
                  have : b ≠ col := fun hbc => hab ⟨rfl, hbc⟩
                  omega
            · intro a b ha hb hbefore
              apply hkeep' a b ha hb
              omega
          · rw [if_neg hcell] at h
            push_neg at hcell
            apply tryNums_sound size bs row col hp (by omega) (by omega) _
              (fun h1 t1 s1 g1 t1' s1' hw1 hc1 hv1 hres =>
                ih _ _ h1 t1 s1 g1 t1' s1' hw1 hc1 hv1 hres)
              (fun h1 t1 s1 g1 t1' s1' hw1 hres =>
                fillRec_restore size bs clock rand st tmo f row (col + 1)
                  h1 t1 s1 g1 t1' s1' hw1 hres)
              _ g _ _ g' t' s' hw hcons hvals ?_ hcell h
            intro v hv
            have hperm := shuffleArray_perm rand (List.range' 1 size) s
            have : v ∈ List.range' 1 size := hperm.mem_iff.mp hv
            rw [List.mem_range'_1] at this
            exact ⟨this.1, by omega⟩

theorem mem_emptyCellsOf (g : Grid) (p : Nat × Nat) :
    p ∈ emptyCellsOf g ↔ (p.1 < g.length ∧ p.2 < g.length) ∧ cell g p.1 p.2 = 0 := by
  unfold emptyCellsOf
  rw [List.mem_filter, mem_allCells]
  simp

/-- Full characterization of `getHint`: `none` exactly on grids with no empty
cell; otherwise an empty position of `currentGrid` paired with `solution`'s
value there.  (The embedding is a pure function of its arguments, so neither
grid is modified.) -/
theorem getHint_spec (n : Nat) (currentGrid solution : Grid) (hw : wf n currentGrid)
    (pick : Nat) :
    (getHint currentGrid solution pick = none ↔
      ∀ r c, r < n → c < n → cell currentGrid r c ≠ 0) ∧
    (∀ r c v, getHint currentGrid solution pick = some (r, c, v) →
      cell currentGrid r c = 0 ∧ v = cell solution r c) := by
  have hnil : emptyCellsOf currentGrid = [] ↔
      ∀ r c, r < n → c < n → cell currentGrid r c ≠ 0 := by
    constructor
    · intro hE r c hr hc hz
      have hmem : (r, c) ∈ emptyCellsOf currentGrid :=
        (mem_emptyCellsOf _ _).mpr ⟨⟨hw.1 ▸ hr, hw.1 ▸ hc⟩, hz⟩
      rw [hE] at hmem
      exact absurd hmem (List.not_mem_nil _)
    · intro h
      rw [List.eq_nil_iff_forall_not_mem]
      intro p hp
      rw [mem_emptyCellsOf] at hp
      exact h p.1 p.2 (hw.1 ▸ hp.1.1) (hw.1 ▸ hp.1.2) hp.2
  unfold getHint
  by_cases hE : (emptyCellsOf currentGrid).isEmpty = true
  · rw [if_pos hE]
    refine ⟨⟨fun _ => hnil.mp (List.isEmpty_iff.mp hE), fun _ => rfl⟩, ?_⟩
    intro r c v h
    exact absurd h (by simp)
  · rw [if_neg hE]
    have hne : emptyCellsOf currentGrid ≠ [] := by
      intro h
      exact hE (List.isEmpty_iff.mpr h)
    have hlen : 0 < (emptyCellsOf currentGrid).length := List.length_pos.mpr hne
    have hidx : pick % (emptyCellsOf currentGrid).length
        < (emptyCellsOf currentGrid).length := Nat.mod_lt _ hlen
    have hpmem : (emptyCellsOf currentGrid).getD
        (pick % (emptyCellsOf currentGrid).length) (0, 0) ∈ emptyCellsOf currentGrid := by
      rw [List.getD_eq_getElem?_getD, List.getElem?_eq_getElem hidx, Option.getD_some]
      exact List.getElem_mem hidx
    rw [mem_emptyCellsOf] at hpmem
    constructor
    · constructor
      · intro h
        exact absurd h (by simp)
      · intro hall
        exact absurd (hnil.mpr hall) hne
    · intro r c v h
      have h2 : ((emptyCellsOf currentGrid).getD
            (pick % (emptyCellsOf currentGrid).length) (0, 0)).1 = r ∧
          ((emptyCellsOf currentGrid).getD
            (pick % (emptyCellsOf currentGrid).length) (0, 0)).2 = c ∧
          cell solution
            ((emptyCellsOf currentGrid).getD
              (pick % (emptyCellsOf currentGrid).length) (0, 0)).1
            ((emptyCellsOf currentGrid).getD
              (pick % (emptyCellsOf currentGrid).length) (0, 0)).2 = v := by
        injection h with h3
        exact ⟨congrArg (fun q => q.1) h3, congrArg (fun q => q.2.1) h3,
          congrArg (fun q => q.2.2) h3⟩
      obtain ⟨hr', hc', hv'⟩ := h2
      rw [← hr', ← hc']
      exact ⟨hpmem.2, hv'.symm⟩

theorem fillGrid_valid (size bs : Nat) (hp : SuppPair size bs)
    (clock rand : Nat → Nat) (t s : Nat) (g' : Grid) (t' s' : Nat)
    (h : fillGrid size bs clock rand (emptyGrid size) t s = (true, g', t', s')) :
    wf size g' ∧ Complete size g' ∧ Consistent size g' ∧ ValuesIn size g' ∧
      validGrid size g' = true := by
  unfold fillGrid fillGridRecursive at h
  obtain ⟨hw', hcons', hvals', hfill', _⟩ :=
    fillRec_sound size bs hp clock rand (clock t) 5000 _ 0 0 _ _ _ g' t' s'
      (wf_emptyGrid size) (consistent_emptyGrid size) (valuesIn_emptyGrid size) h
  have hcomp : Complete size g' := by
    intro a b ha hb
    apply hfill' a b ha hb
    by_cases h0 : a = 0
    · right
      exact ⟨h0.symm, Nat.zero_le b⟩
    · left
      omega
  exact ⟨hw', hcomp, hcons', hvals',
    validGrid_of size (goodGeom_of_supported size (suppPair_supported size bs hp))
      g' hcomp hcons' hvals'⟩

theorem cell_createFallbackGrid (n bs r c : Nat) (hr : r < n) (hc : c < n) :
    cell (createFallbackGrid n bs) r c = (r * bs + r / bs + c) % n + 1 := by
  have hrow : (createFallbackGrid n bs)[r]?
      = some ((List.range n).map fun col => (r * bs + r / bs + col) % n + 1) := by
    unfold createFallbackGrid
    rw [List.getElem?_eq_getElem (by simpa using hr)]
    simp
  unfold cell
  rw [hrow, Option.getD_some, List.getElem?_eq_getElem (by simpa using hc)]
  simp

theorem wf_createFallbackGrid (n bs : Nat) : wf n (createFallbackGrid n bs) := by
  constructor
  · simp [createFallbackGrid]
  · intro row hrow
    unfold createFallbackGrid at hrow
    rw [List.mem_map] at hrow
    obtain ⟨r, _, rfl⟩ := hrow
    simp

theorem complete_createFallbackGrid (n bs : Nat) : Complete n (createFallbackGrid n bs) := by
  intro r c hr hc
  rw [cell_createFallbackGrid n bs r c hr hc]
  omega

theorem valuesIn_createFallbackGrid (n bs : Nat) (hn : 0 < n) :
    ValuesIn n (createFallbackGrid n bs) := by
  intro r c hr hc
  rw [cell_createFallbackGrid n bs r c hr hc]
  have := Nat.mod_lt (r * bs + r / bs + c) hn
  omega

/-- Each run of `generateComplete` returns either a successfully filled grid
(provably valid) or the deterministic fallback grid. -/
theorem generateCompleteAux_cases (size bs : Nat) (hp : SuppPair size bs)
    (clock rand : Nat → Nat) :
    ∀ (k t s : Nat),
      validGrid size (generateCompleteAux size bs clock rand k t s).1 = true ∨
      (generateCompleteAux size bs clock rand k t s).1 = createFallbackGrid size bs := by
  intro k
  induction k with
  | zero =>
    intro t s
    right
    rfl
  | succ k ih =>
    intro t s
    rw [generateCompleteAux]
    rcases hf : fillGrid size bs clock rand (emptyGrid size) t s with ⟨b, g1, t1, s1⟩
    cases b
    · exact ih t1 s1
    · left
      show validGrid size g1 = true
      exact (fillGrid_valid size bs hp clock rand t s g1 t1 s1 hf).2.2.2.2

theorem generateCompleteAux_props (size bs : Nat) (hp : SuppPair size bs)
    (clock rand : Nat → Nat) :
    ∀ (k t s : Nat),
      wf size (generateCompleteAux size bs clock rand k t s).1 ∧
      Complete size (generateCompleteAux size bs clock rand k t s).1 ∧
      ValuesIn size (generateCompleteAux size bs clock rand k t s).1 := by
  have hpos : 0 < size := by
    rcases hp with ⟨rfl, _⟩ | ⟨rfl, _⟩ | ⟨rfl, _⟩ <;> omega
  intro k
  induction k with
  | zero =>
    intro t s
    exact ⟨wf_createFallbackGrid size bs, complete_createFallbackGrid size bs,
      valuesIn_createFallbackGrid size bs hpos⟩
  | succ k ih =>
    intro t s
    rw [generateCompleteAux]
    rcases hf : fillGrid size bs clock rand (emptyGrid size) t s with ⟨b, g1, t1, s1⟩
    cases b
    · exact ih t1 s1
    · obtain ⟨hw, hcomp, _, hvals, _⟩ := fillGrid_valid size bs hp clock rand t s g1 t1 s1 hf
      exact ⟨hw, hcomp, hvals⟩

theorem removeAll_cons (g : Grid) (p : Nat × Nat) (ps : List (Nat × Nat)) :
    removeAll g (p :: ps) = removeAll (setZero g p.1 p.2) ps := rfl

theorem wf_removeAll (n : Nat) : ∀ (ps : List (Nat × Nat)) (g : Grid), wf n g →
    wf n (removeAll g ps) := by
  intro ps
  induction ps with
  | nil => intro g hw; exact hw
  | cons p rest ih =>
    intro g hw
    exact ih _ (wf_place n g p.1 p.2 0 hw)

theorem removeAll_cell_not_mem : ∀ (ps : List (Nat × Nat)) (g : Grid) (a b : Nat),
    (a, b) ∉ ps → cell (removeAll g ps) a b = cell g a b := by
  intro ps
  induction ps with
  | nil => intro g a b _; rfl
  | cons p rest ih =>
    intro g a b hmem
    rcases p with ⟨p1, p2⟩
    rw [removeAll_cons, ih _ a b (fun h => hmem (List.mem_cons_of_mem _ h))]
    apply cell_place_ne
    have hne : (a, b) ≠ (p1, p2) := fun h => hmem (h ▸ List.mem_cons_self _ rest)
    show p1 ≠ a ∨ p2 ≠ b
    by_cases h1 : p1 = a
    · right
      intro h2
      exact hne (by rw [h1, h2])
    · left
      exact h1

theorem removeAll_cell_mem (n : Nat) : ∀ (ps : List (Nat × Nat)) (g : Grid), wf n g →
    (∀ p ∈ ps, p.1 < n ∧ p.2 < n) → ∀ a b, (a, b) ∈ ps →
    cell (removeAll g ps) a b = 0 := by
  intro ps
  induction ps with
  | nil => intro g _ _ a b h; exact absurd h (List.not_mem_nil _)
  | cons p rest ih =>
    intro g hw hin a b hmem
    rw [removeAll_cons]
    by_cases hr : (a, b) ∈ rest
    · exact ih _ (wf_place n g p.1 p.2 0 hw)
        (fun q hq => hin q (List.mem_cons_of_mem _ hq)) a b hr
    · rcases List.mem_cons.mp hmem with heq | h
      · rcases p with ⟨p1, p2⟩
        injection heq with e1 e2
        subst e1
        subst e2
        rw [removeAll_cell_not_mem rest _ a b hr]
        exact cell_place_self n g hw a b 0
          (hin (a, b) (List.mem_cons_self _ _)).1
          (hin (a, b) (List.mem_cons_self _ _)).2
      · exact absurd h hr

theorem countZeros_setZero (n : Nat) (g : Grid) (hw : wf n g) (r c : Nat)
    (hr : r < n) (hc : c < n) (hnz : cell g r c ≠ 0) :
    countZeros (setZero g r c) = countZeros g + 1 := by
  unfold countZeros setZero
  rw [length_place, hw.1]
  apply countP_pointwise_succ _ _ (allCells n) (r, c) (nodup_allCells n)
    ((mem_allCells _ _).mpr ⟨hr, hc⟩)
  · intro y _ hne
    have hor : r ≠ y.1 ∨ c ≠ y.2 := by
      by_contra hcon
      push_neg at hcon
      rcases y with ⟨y1, y2⟩
      simp only at hcon
      exact hne (by simp [hcon.1.symm, hcon.2.symm])
    show (cell (place g r c 0) y.1 y.2 == 0) = (cell g y.1 y.2 == 0)
    rw [cell_place_ne g y.1 y.2 0 r c hor]
  · simp [cell_place_self n g hw r c 0 hr hc]
  · simpa using hnz

theorem countZeros_removeAll (n : Nat) : ∀ (ps : List (Nat × Nat)) (g : Grid), wf n g →
    ps.Nodup → (∀ p ∈ ps, p.1 < n ∧ p.2 < n) → (∀ p ∈ ps, cell g p.1 p.2 ≠ 0) →
    countZeros (removeAll g ps) = countZeros g + ps.length := by
  intro ps
  induction ps with
  | nil => intro g _ _ _ _; rfl
  | cons p rest ih =>
    intro g hw hnd hin hnz
    rw [removeAll_cons]
    have hp := hin p (List.mem_cons_self _ _)
    have hwz : wf n (setZero g p.1 p.2) := wf_place n g p.1 p.2 0 hw
    have hrs : ∀ q ∈ rest, cell (setZero g p.1 p.2) q.1 q.2 ≠ 0 := by
      intro q hq
      have hqp : q ≠ p := fun h => (List.nodup_cons.mp hnd).1 (h ▸ hq)
      have hor : p.1 ≠ q.1 ∨ p.2 ≠ q.2 := by
        rcases p with ⟨p1, p2⟩
        rcases q with ⟨q1, q2⟩
        show p1 ≠ q1 ∨ p2 ≠ q2
        by_cases h1 : p1 = q1
        · right
          intro h2
          exact hqp (by rw [h1, h2])
        · left
          exact h1
      rw [show setZero g p.1 p.2 = place g p.1 p.2 0 from rfl,
        cell_place_ne g q.1 q.2 0 p.1 p.2 hor]
      exact hnz q (List.mem_cons_of_mem _ hq)
    rw [ih _ hwz (List.nodup_cons.mp hnd).2
      (fun q hq => hin q (List.mem_cons_of_mem _ hq)) hrs,
      countZeros_setZero n g hw p.1 p.2 hp.1 hp.2 (hnz p (List.mem_cons_self _ _))]
    simp only [List.length_cons]
    omega

theorem countZeros_eq_zero_of_complete (n : Nat) (g : Grid) (hlen : g.length = n)
    (hcomp : Complete n g) : countZeros g = 0 := by
  unfold countZeros
  rw [hlen, List.countP_eq_zero]
  intro p hp
  rw [mem_allCells] at hp
  simp [hcomp p.1 p.2 hp.1 hp.2]

theorem suppPair_boxSizeOf (n : Nat) (hn : Supported n) : SuppPair n (boxSizeOf n) := by
  rcases hn with rfl | rfl | rfl
  · exact Or.inl ⟨rfl, rfl⟩
  · exact Or.inr (Or.inl ⟨rfl, rfl⟩)
  · exact Or.inr (Or.inr ⟨rfl, rfl⟩)

/-- `generatePuzzle` in terms of its components. -/
theorem generatePuzzle_eq (difficulty size : Nat) (clock rand : Nat → Nat) (t s : Nat) :
    generatePuzzle difficulty size clock rand t s =
      (removeAll (generateComplete size (boxSizeOf size) clock rand t s).1
        ((shuffleArray rand (allCells size)
          (generateComplete size (boxSizeOf size) clock rand t s).2.2).1.take
            (size * size * removalNum difficulty / 100)),
       (generateComplete size (boxSizeOf size) clock rand t s).1,
       (generateComplete size (boxSizeOf size) clock rand t s).2.1,
       (shuffleArray rand (allCells size)
         (generateComplete size (boxSizeOf size) clock rand t s).2.2).2) := by
  unfold generatePuzzle
  rcases hg : generateComplete size (boxSizeOf size) clock rand t s with ⟨sol, t', s'⟩
  rcases hsh : shuffleArray rand (allCells size) s' with ⟨shuffled, s''⟩
  simp [hsh]

/-- Joint properties of the `{puzzle, solution}` pair: the puzzle is a
well-formed grid obtained from the solution by zeroing cells, agreeing with it
on every non-zero cell, with exactly `min ⌊N²·fraction⌋ N²` zeroed cells. -/
theorem generatePuzzle_props (difficulty size : Nat) (hn : Supported size)
    (clock rand : Nat → Nat) (t s : Nat) :
    wf size (generatePuzzle difficulty size clock rand t s).1 ∧
    ExtendsTo size (generatePuzzle difficulty size clock rand t s).1
      (generatePuzzle difficulty size clock rand t s).2.1 ∧
    countZeros (generatePuzzle difficulty size clock rand t s).1
      = min (size * size * removalNum difficulty / 100) (size * size) := by
  obtain ⟨hwS, hcompS, hvalsS⟩ :=
    generateCompleteAux_props size (boxSizeOf size) (suppPair_boxSizeOf size hn)
      clock rand 10 t s
  rw [generatePuzzle_eq]
  set sol := (generateComplete size (boxSizeOf size) clock rand t s).1 with hsol
  set shuffled := (shuffleArray rand (allCells size)
    (generateComplete size (boxSizeOf size) clock rand t s).2.2).1 with hshuf
  set ps := shuffled.take (size * size * removalNum difficulty / 100) with hps
  have hperm : shuffled.Perm (allCells size) := shuffleArray_perm rand _ _
  have hsub : ∀ p, p ∈ ps → p ∈ allCells size := by
    intro p hp
    exact hperm.mem_iff.mp (List.take_subset _ _ hp)
  have hin : ∀ p ∈ ps, p.1 < size ∧ p.2 < size := by
    intro p hp
    exact (mem_allCells size p).mp (hsub p hp)
  have hnd : ps.Nodup :=
    List.Nodup.sublist (List.take_sublist _ _) (hperm.nodup_iff.mpr (nodup_allCells size))
  have hnz : ∀ p ∈ ps, cell sol p.1 p.2 ≠ 0 := by
    intro p hp
    exact hcompS p.1 p.2 (hin p hp).1 (hin p hp).2
  refine ⟨wf_removeAll size ps sol hwS, ?_, ?_⟩
  · intro a b ha hb hnzP
    by_cases hmem : (a, b) ∈ ps
    · exact absurd (removeAll_cell_mem size ps sol hwS hin a b hmem) hnzP
    · exact removeAll_cell_not_mem ps sol a b hmem
  · rw [countZeros_removeAll size ps sol hwS hnd hin hnz,
      countZeros_eq_zero_of_complete size sol hwS.1 hcompS, Nat.zero_add,
      hps, List.length_take, hperm.length_eq, length_allCells]

theorem consistent_of_extends (n : Nat) (g s : Grid) (hext : ExtendsTo n g s)
    (hcons : Consistent n s) : Consistent n g := by
  intro a b a' b' ha hb ha' hb' hsame hne hnz hnz'
  rw [hext a b ha hb hnz, hext a' b' ha' hb' hnz']
  apply hcons a b a' b' ha hb ha' hb' hsame hne
  · rw [← hext a b ha hb hnz]
    exact hnz
  · rw [← hext a' b' ha' hb' hnz']
    exact hnz'

theorem valuesIn_of_extends (n : Nat) (g s : Grid) (hext : ExtendsTo n g s)
    (hvals : ValuesIn n s) : ValuesIn n g := by
  intro a b ha hb
  by_cases hz : cell g a b = 0
  · omega
  · rw [hext a b ha hb hz]
    exact hvals a b ha hb

/-- Solving any well-formed subgrid of a valid complete grid succeeds and
yields a complete grid satisfying the validity invariant. -/
theorem solvePuzzle_on_subgrid (n : Nat) (hn : Supported n) (s g : Grid)
    (hcomp : Complete n s) (hcons : Consistent n s) (hvals : ValuesIn n s)
    (hwg : wf n g) (hext : ExtendsTo n g s) :
    (solvePuzzle g).1 = true ∧ Complete n (solvePuzzle g).2 ∧
      validGrid n (solvePuzzle g).2 = true := by
  have hconsg : Consistent n g := consistent_of_extends n g s hext hcons
  have hvalsg : ValuesIn n g := valuesIn_of_extends n g s hext hvals
  have htrue : (solveFuel (countZeros g + 1) g).1 = true :=
    solveFuel_complete n hn s hcomp hcons hvals _ g hwg hext (by omega)
  rcases hres : solveFuel (countZeros g + 1) g with ⟨b, g'⟩
  have hb : b = true := by
    rw [hres] at htrue
    exact htrue
  subst hb
  obtain ⟨hw', hcomp', hcons', hvals', _⟩ :=
    solveFuel_sound n hn _ g g' hwg hconsg hvalsg hres
  have hsp : solvePuzzle g = (true, g') := by
    rw [solvePuzzle, hres]
  rw [hsp]
  exact ⟨rfl, hcomp',
    validGrid_of n (goodGeom_of_supported n hn) g' hcomp' hcons' hvals'⟩

/-- C8: on a 6×6 grid, placing `4` at `(1, 4)` is rejected both when a `4`
sits at `(0, 3)` (same 2×3 box) and when a `4` sits only at `(3, 4)`
(different box, same column) — for the internal validator `isValid`
(with `size = 6`, `boxSize = 2` as configured by `setSize`) and for
`isValidForGrid` alike. -/
theorem claim8_six_box_and_column_rejection :
    isValid 6 2 [[0,0,0,4,0,0],[0,0,0,0,0,0],[0,0,0,0,0,0],
      [0,0,0,0,0,0],[0,0,0,0,0,0],[0,0,0,0,0,0]] 1 4 4 = false ∧
    isValid 6 2 [[0,0,0,0,0,0],[0,0,0,0,0,0],[0,0,0,0,0,0],
      [0,0,0,0,4,0],[0,0,0,0,0,0],[0,0,0,0,0,0]] 1 4 4 = false ∧
    isValidForGrid [[0,0,0,4,0,0],[0,0,0,0,0,0],[0,0,0,0,0,0],
      [0,0,0,0,0,0],[0,0,0,0,0,0],[0,0,0,0,0,0]] 1 4 4 = false ∧
    isValidForGrid [[0,0,0,0,0,0],[0,0,0,0,0,0],[0,0,0,0,0,0],
      [0,0,0,0,4,0],[0,0,0,0,0,0],[0,0,0,0,0,0]] 1 4 4 = false := by
  refine ⟨by decide, by decide, by decide, by decide⟩

/-- C9: each fill attempt is bounded by the 5000 ms wall-clock budget: the
recursive search reads the clock at every call entry, and a call entered when
more than 5000 ms have elapsed since the attempt's start time returns `false`
immediately, leaving the grid untouched (no value placed) and consuming only
that one clock reading. -/
theorem claim9_timeout_aborts_immediately (size bs : Nat) (clock rand : Nat → Nat)
    (startTime row col : Nat) (g : Grid) (t s : Nat)
    (h : clock t - startTime > 5000) :
    fillGridRecursive size bs clock rand startTime 5000 row col g t s
      = (false, g, t + 1, s) := by
  rw [fillGridRecursive_eq, if_pos h]

/-- Witness for C9 at a concrete clock reading. -/
theorem claim9_witness :
    ((fun _ : Nat => 9000) 0 - 0 > 5000) ∧
    fillGridRecursive 9 3 (fun _ => 9000) (fun _ => 0) 0 5000 0 0 (emptyGrid 9) 0 0
      = (false, emptyGrid 9, 1, 0) :=
  ⟨by decide, claim9_timeout_aborts_immediately 9 3 (fun _ => 9000) (fun _ => 0)
    0 0 0 (emptyGrid 9) 0 0 (by decide)⟩

/-- C1 (amended): every grid produced by `generateComplete` on a supported
configuration satisfies the validity invariant, except in the single case the
counterexample exhibits: at `size = 6`, when all ten fill attempts fail, the
returned fallback grid violates the invariant.  (Grids produced by a
successful backtracking fill are always valid, for every clock and random
stream, and the fallback grid is valid for sizes 4 and 9.) -/
theorem claim1_generateComplete_valid_unless_six_fallback (size bs : Nat)
    (hp : SuppPair size bs) (clock rand : Nat → Nat) (t s : Nat) :
    validGrid size (generateComplete size bs clock rand t s).1 = true ∨
      (size = 6 ∧ (generateComplete size bs clock rand t s).1
        = createFallbackGrid 6 2) := by
  rcases generateCompleteAux_cases size bs hp clock rand 10 t s with h | h
  · exact Or.inl h
  · rcases hp with ⟨rfl, rfl⟩ | ⟨rfl, rfl⟩ | ⟨rfl, rfl⟩
    · left
      show validGrid 4 (generateCompleteAux 4 2 clock rand 10 t s).1 = true
      rw [h]
      decide
    · exact Or.inr ⟨rfl, h⟩
    · left
      show validGrid 9 (generateCompleteAux 9 3 clock rand 10 t s).1 = true
      rw [h]
      decide

set_option maxRecDepth 1000000 in
/-- C1: counterexample to the claim as stated — with `size = 6` and a clock
under which every one of the ten fill attempts times out immediately,
`generateComplete` returns the fallback grid, which violates the validity
invariant. -/
theorem claim1_counterexample :
    validGrid 6 (generateComplete 6 2 (fun k => 6000 * k) (fun _ => 0) 0 0).1 = false := by
  decide

/-- Witness for C1 at the supported pair `(4, 2)`. -/
theorem claim1_witness :
    SuppPair 4 2 ∧
    (validGrid 4 (generateComplete 4 2 (fun _ => 0) (fun _ => 0) 0 0).1 = true ∨
      (4 = 6 ∧ (generateComplete 4 2 (fun _ => 0) (fun _ => 0) 0 0).1
        = createFallbackGrid 6 2)) :=
  ⟨Or.inl ⟨rfl, rfl⟩,
    claim1_generateComplete_valid_unless_six_fallback 4 2 (Or.inl ⟨rfl, rfl⟩)
      (fun _ => 0) (fun _ => 0) 0 0⟩

/-- C3 (amended): for every generated `{puzzle, solution}` pair whose solution
satisfies the validity invariant (always, except when the invalid `N = 6`
fallback grid is taken as the solution), `solvePuzzle` on the puzzle returns
`true` and the resulting grid is complete and satisfies the validity
invariant.  Exact equality with the paired solution is not guaranteed (the
spec itself offers validity of the output as the assertion mode). -/
theorem claim3_solve_on_generated_puzzle (difficulty size : Nat) (hn : Supported size)
    (clock rand : Nat → Nat) (t s : Nat)
    (hsol : validGrid size (generatePuzzle difficulty size clock rand t s).2.1 = true) :
    (solvePuzzle (generatePuzzle difficulty size clock rand t s).1).1 = true ∧
    Complete size (solvePuzzle (generatePuzzle difficulty size clock rand t s).1).2 ∧
    validGrid size (solvePuzzle (generatePuzzle difficulty size clock rand t s).1).2
      = true := by
  obtain ⟨hwP, hext, _⟩ := generatePuzzle_props difficulty size hn clock rand t s
  obtain ⟨hcompS, hvalsS, hconsS⟩ :=
    validGrid_chars size (goodGeom_of_supported size hn) _ hsol
  exact solvePuzzle_on_subgrid size hn _ _ hcompS hconsS hvalsS hwP hext

set_option maxRecDepth 1000000 in
/-- C3: counterexample to the claim as stated: at `N = 6`, difficulty 1, with
a clock under which every fill attempt times out, the paired solution is the
invalid fallback grid and `solvePuzzle` on the resulting puzzle returns
`false`. -/
theorem claim3_counterexample :
    (solvePuzzle (generatePuzzle 1 6 (fun k => 6000 * k) (fun _ => 0) 0 0).1).1
      = false := by
  decide

set_option maxRecDepth 1000000 in
/-- Witness for C3 at `N = 4`, difficulty 1, a concrete clock and stream. -/
theorem claim3_witness :
    Supported 4 ∧
    validGrid 4 (generatePuzzle 1 4 (fun _ => 0) (fun _ => 0) 0 0).2.1 = true ∧
    ((solvePuzzle (generatePuzzle 1 4 (fun _ => 0) (fun _ => 0) 0 0).1).1 = true ∧
     Complete 4 (solvePuzzle (generatePuzzle 1 4 (fun _ => 0) (fun _ => 0) 0 0).1).2 ∧
     validGrid 4 (solvePuzzle (generatePuzzle 1 4 (fun _ => 0) (fun _ => 0) 0 0).1).2
       = true) :=
  ⟨Or.inl rfl, by decide,
    claim3_solve_on_generated_puzzle 1 4 (Or.inl rfl) (fun _ => 0) (fun _ => 0) 0 0
      (by decide)⟩

/-- C4: if `solvePuzzle` returns `false` on a well-formed grid, the returned
grid is exactly the input grid: every cell that was empty is empty again and
every filled cell is unchanged (backtracking undoes all of its placements). -/
theorem claim4_failed_solve_restores_grid (n : Nat) (g g' : Grid) (hw : wf n g)
    (h : solvePuzzle g = (false, g')) : g' = g :=
  solveFuel_restore n (countZeros g + 1) g g' hw h

set_option maxRecDepth 1000000 in
/-- Witness for C4: a concrete unsolvable grid. -/
theorem claim4_witness :
    wf 4 [[1, 2, 3, 0], [0, 0, 0, 4], [0, 0, 0, 0], [0, 0, 0, 0]] ∧
    solvePuzzle [[1, 2, 3, 0], [0, 0, 0, 4], [0, 0, 0, 0], [0, 0, 0, 0]]
      = (false, (solvePuzzle [[1, 2, 3, 0], [0, 0, 0, 4], [0, 0, 0, 0], [0, 0, 0, 0]]).2) ∧
    (solvePuzzle [[1, 2, 3, 0], [0, 0, 0, 4], [0, 0, 0, 0], [0, 0, 0, 0]]).2
      = [[1, 2, 3, 0], [0, 0, 0, 4], [0, 0, 0, 0], [0, 0, 0, 0]] :=
  ⟨by decide, by decide,
    claim4_failed_solve_restores_grid 4 _ _ (by decide) (by decide)⟩

/-- C5: the puzzle returned by `generatePuzzle` has exactly
`min ⌊N²·f(difficulty)⌋ N²` zero cells, where `f` is the removal table
`{1 ↦ 30%, 2 ↦ 40%, 3 ↦ 50%, 4 ↦ 60%, 5 ↦ 65%}` with any other difficulty
defaulting to `60%` (exact rational arithmetic; the JS double products floor
to the same integers on every supported size and difficulty). -/
theorem claim5_removal_count (difficulty size : Nat) (hn : Supported size)
    (clock rand : Nat → Nat) (t s : Nat) :
    countZeros (generatePuzzle difficulty size clock rand t s).1
      = min (size * size * removalNum difficulty / 100) (size * size) :=
  (generatePuzzle_props difficulty size hn clock rand t s).2.2

/-- Witness for C5 at `N = 6`, difficulty 1. -/
theorem claim5_witness :
    Supported 6 ∧
    countZeros (generatePuzzle 1 6 (fun k => 6000 * k) (fun _ => 0) 0 0).1
      = min (6 * 6 * removalNum 1 / 100) (6 * 6) :=
  ⟨Or.inr (Or.inl rfl),
    claim5_removal_count 1 6 (Or.inr (Or.inl rfl)) (fun k => 6000 * k) (fun _ => 0) 0 0⟩

/-- C6: in the `{puzzle, solution}` pair returned by `generatePuzzle`, every
non-zero cell of the puzzle equals the corresponding cell of the solution. -/
theorem claim6_puzzle_solution_consistency (difficulty size : Nat) (hn : Supported size)
    (clock rand : Nat → Nat) (t s : Nat) (r c : Nat) (hr : r < size) (hc : c < size)
    (hnz : cell (generatePuzzle difficulty size clock rand t s).1 r c ≠ 0) :
    cell (generatePuzzle difficulty size clock rand t s).1 r c
      = cell (generatePuzzle difficulty size clock rand t s).2.1 r c :=
  (generatePuzzle_props difficulty size hn clock rand t s).2.1 r c hr hc hnz

set_option maxRecDepth 1000000 in
/-- Witness for C6 at `N = 6`, difficulty 1, cell `(2, 0)`. -/
theorem claim6_witness :
    Supported 6 ∧ 2 < 6 ∧ 0 < 6 ∧
    cell (generatePuzzle 1 6 (fun k => 6000 * k) (fun _ => 0) 0 0).1 2 0 ≠ 0 ∧
    cell (generatePuzzle 1 6 (fun k => 6000 * k) (fun _ => 0) 0 0).1 2 0
      = cell (generatePuzzle 1 6 (fun k => 6000 * k) (fun _ => 0) 0 0).2.1 2 0 :=
  ⟨Or.inr (Or.inl rfl), by decide, by decide, by decide,
    claim6_puzzle_solution_consistency 1 6 (Or.inr (Or.inl rfl)) (fun k => 6000 * k)
      (fun _ => 0) 0 0 2 0 (by decide) (by decide) (by decide)⟩

/-- C7: `getHint` returns `null` iff the current grid has no zero cell;
otherwise it returns `{row, col, value}` with `currentGrid[row][col] == 0` and
`value == solution[row][col]`; the embedding is a pure function, so neither
grid is mutated. -/
theorem claim7_hint_correctness (n : Nat) (currentGrid solution : Grid)
    (hw : wf n currentGrid) (pick : Nat) :
    (getHint currentGrid solution pick = none ↔
      ∀ r c, r < n → c < n → cell currentGrid r c ≠ 0) ∧
    (∀ r c v, getHint currentGrid solution pick = some (r, c, v) →
      cell currentGrid r c = 0 ∧ v = cell solution r c) :=
  getHint_spec n currentGrid solution hw pick

/-- Witness for C7 on a concrete 2×2 pair. -/
theorem claim7_witness :
    wf 2 [[0, 1], [1, 1]] ∧
    ((getHint [[0, 1], [1, 1]] [[2, 1], [1, 2]] 0 = none ↔
      ∀ r c, r < 2 → c < 2 → cell [[0, 1], [1, 1]] r c ≠ 0) ∧
    (∀ r c v, getHint [[0, 1], [1, 1]] [[2, 1], [1, 2]] 0 = some (r, c, v) →
      cell [[0, 1], [1, 1]] r c = 0 ∧ v = cell [[2, 1], [1, 2]] r c)) :=
  ⟨by decide, claim7_hint_correctness 2 _ _ (by decide) 0⟩

/-- C10: on any grid whose scanned `size × size` square contains no zero cell,
`solvePuzzle` returns `true` and leaves the grid unchanged — even when the
grid violates the Sudoku constraints, because the solver never re-validates
already-filled cells. -/
theorem claim10_full_grid_reported_solved (g : Grid)
    (h : ∀ r, r < g.length → ∀ c, c < g.length → cell g r c ≠ 0) :
    solvePuzzle g = (true, g) := by
  have hfe : findEmpty g = none :=
    (findEmpty_none g).mpr fun r c hr hc => h r hr c hc
  have hcz : countZeros g = 0 := by
    unfold countZeros
    rw [List.countP_eq_zero]
    intro p hp
    rw [mem_allCells] at hp
    simp [h p.1 hp.1 p.2 hp.2]
  show solveFuel (countZeros g + 1) g = (true, g)
  rw [hcz, solveFuel, hfe]

/-- Witness for C10: a completely filled but blatantly invalid grid (all
ones) is reported as solved. -/
theorem claim10_witness :
    (∀ r, r < ([[1, 1, 1, 1], [1, 1, 1, 1], [1, 1, 1, 1], [1, 1, 1, 1]] : Grid).length →
      ∀ c, c < ([[1, 1, 1, 1], [1, 1, 1, 1], [1, 1, 1, 1], [1, 1, 1, 1]] : Grid).length →
      cell [[1, 1, 1, 1], [1, 1, 1, 1], [1, 1, 1, 1], [1, 1, 1, 1]] r c ≠ 0) ∧
    solvePuzzle [[1, 1, 1, 1], [1, 1, 1, 1], [1, 1, 1, 1], [1, 1, 1, 1]]
      = (true, [[1, 1, 1, 1], [1, 1, 1, 1], [1, 1, 1, 1], [1, 1, 1, 1]]) :=
  ⟨by decide, claim10_full_grid_reported_solved _ (by decide)⟩

end SudokuGenerator
